import Mathlib

/-!
Verification development for `sspatcher`, a tool that reads and writes the
fixed binary layout of a synthesizer EEPROM image: 128 named wavetables,
with an 8-byte name record region at offset 0x0F0000 and an 8192-byte
audio data block region at offset 0x100000.

Shallow embedding conventions:
* A file's contents / byte strings are `List Nat` (each entry one byte).
* Python strings (filenames, name stems) are `List Char`.
* Fallible code returns `Except PyErr _`; the single Python exception class
  `SSPatcherError` is refined into one constructor per distinct `raise`
  site so that theorems can talk about which failure occurred.  Python
  exceptions that are *not* `SSPatcherError` (an uncaught `ValueError`
  from `int()`, an `IOError` from the filesystem) get their own
  constructors in `PyErr`.
* A file object open for reading is modelled by its full contents; a
  `seek`/`read(n)` pair becomes `slice` (drop/take).  A `seek`/`write`
  pair on a read-write file becomes `writeAt` (in-place splice).
* `itertools.groupby` over bytes is modelled by `runs`, which returns the
  maximal runs of identical bytes as (value, run length) pairs in order.
* The directory listing consumed by `read_wavetables_from_files` is
  modelled as the list of (filename, contents) pairs in `os.listdir`
  order; the `os.path.isdir` precheck is modelled away by taking the
  listing itself as input.
* `extract`'s filesystem effects are modelled by an explicit `FS` state
  (set of directories plus (path, contents) files); the `wave` library's
  container encoding is abstracted by `wavFileContents` since no claim
  inspects wav bytes, only which paths are written and when.
-/

deriving instance DecidableEq for Except

set_option maxRecDepth 20000

namespace SSpatcher

/-- Constants describing the image file and the wavetable format,
from the top of sspatcher.py. -/
def IMAGE_SIZE_SHORT : Nat := 0x200000

/-- Long image size variant. -/
def IMAGE_SIZE_LONG : Nat := 0x800000

/-- Number of wavetables in an image. -/
def NUM_WT : Nat := 128

/-- Start of the name record region. -/
def WT_NAME_OFFSET : Nat := 0x0F0000

/-- Length of one on-image name record. -/
def WT_NAME_LENGTH : Nat := 8

/-- Two-byte record lead-in `b'  '` (two spaces). -/
def WT_NAME_PFX : List Nat := [32, 32]

/-- Length of the user-visible part of a name record (8 - 2 = 6). -/
def WT_USER_NAME_LENGTH : Nat := WT_NAME_LENGTH - WT_NAME_PFX.length

/-- Start of the audio data region. -/
def WT_DATA_OFFSET : Nat := 0x100000

/-- Length of one wavetable audio block (1024 * 8 bytes). -/
def WT_DATA_LENGTH : Nat := 1024 * 8

/-- Longest permitted run of identical bytes in the audio data. -/
def RUN_LIMIT : Nat := WT_DATA_LENGTH / 4

/-- Refinement of the single Python class `SSPatcherError` into one
constructor per distinct raise site of sspatcher.py. -/
inductive SSPatcherError where
  | truncatedData (expected : Nat)
  | truncatedNames (expected : Nat)
  | suspiciousData (runLength : Nat) (byteValue : Nat)
  | badNameRecord (record : List Nat)
  | formatError (name : List Char)
  | duplicateName (name : List Char)
  | wrongSize (name : List Char) (expected actual : Nat)
  | wrongCount (expected actual : Nat)
  | badImageSize (actual : Nat) (expectedShort expectedLong : Nat)
  | destinationExists (path : List Char)
  | lengthMismatch (names tables expected : Nat)
  | invalidCharacter (name : List Char) (ch : Char)
deriving DecidableEq

/-- Errors as observed at the CLI boundary: `ssp` wraps the tool's own
exception class; `valueError` is an uncaught Python `ValueError` (raised
by `int()` on a malformed literal); `unicodeDecodeError` is an uncaught
`UnicodeDecodeError` (a `ValueError` subclass, raised by
`bytes.decode()` on non-UTF-8 input); `ioError` is an operating-system
I/O failure such as opening a file in a missing directory. -/
inductive PyErr where
  | ssp (e : SSPatcherError)
  | valueError
  | unicodeDecodeError
  | ioError
deriving DecidableEq

/-- Reading `n` bytes after seeking to `off`, `f.seek(off); f.read(n)`. -/
def slice (f : List Nat) (off n : Nat) : List Nat :=
  (f.drop off).take n

/-- Writing bytes in place after a seek on a file opened `r+b`:
`f.seek(off); f.write(b)`. -/
def writeAt (f : List Nat) (off : Nat) (b : List Nat) : List Nat :=
  f.take off ++ b ++ f.drop (off + b.length)

/-- Fixed-width chunking `[l[i*size : i*size+size] for i in range(count)]`,
the list-comprehension splits used by `read_wt_data`/`read_wt_names`
(there `count` is the byte total divided by `size`). -/
def chunks (l : List Nat) (size count : Nat) : List (List Nat) :=
  (List.range count).map (fun i => (l.drop (i * size)).take size)

/-- Accumulator loop behind `runs`: `b` is the byte of the run being
scanned and `k` the number of copies of it seen so far. -/
def runsAux (b k : Nat) : List Nat → List (Nat × Nat)
  | [] => [(b, k)]
  | x :: xs => if x = b then runsAux b (k + 1) xs else (b, k) :: runsAux x 1 xs

/-- Maximal runs of identical bytes, in order, as (value, length) pairs:
the shallow embedding of `itertools.groupby` plus `len(list(run))`. -/
def runs : List Nat → List (Nat × Nat)
  | [] => []
  | x :: xs => runsAux x 1 xs

/-- Translation of `read_wt_data`: read the whole data region, fail on a
short read, fail on the first run of identical bytes longer than
`RUN_LIMIT` (reporting that run's length and byte), else split into
`NUM_WT` blocks. -/
def read_wt_data (f : List Nat) : Except PyErr (List (List Nat)) :=
  let dbl := WT_DATA_LENGTH * NUM_WT
  let blk := slice f WT_DATA_OFFSET dbl
  if blk.length ≠ dbl then .error (.ssp (.truncatedData dbl))
  else
    match (runs blk).find? (fun p => decide (RUN_LIMIT < p.2)) with
    | some p => .error (.ssp (.suspiciousData p.2 p.1))
    | none => .ok (chunks blk WT_DATA_LENGTH NUM_WT)

/-- Test `name.startswith(WT_NAME_PREFIX)` on a byte string. -/
def startsWithPfx (r : List Nat) : Bool :=
  r.take WT_NAME_PFX.length = WT_NAME_PFX

/-- Translation of `read_wt_names`: read the whole name region, fail on a
short read, split into `NUM_WT` 8-byte records, fail on the first record
that does not start with the two-space lead-in, else strip the lead-in
from every record. -/
def read_wt_names (f : List Nat) : Except PyErr (List (List Nat)) :=
  let nbl := WT_NAME_LENGTH * NUM_WT
  let blk := slice f WT_NAME_OFFSET nbl
  if blk.length ≠ nbl then .error (.ssp (.truncatedNames nbl))
  else
    let names := chunks blk WT_NAME_LENGTH NUM_WT
    match names.find? (fun n => ! startsWithPfx n) with
    | some n => .error (.ssp (.badNameRecord n))
    | none => .ok (names.map (fun n => n.drop WT_NAME_PFX.length))

/-- Python whitespace characters stripped by `str.strip()`, restricted to
the ASCII range (the only characters these claims exercise). -/
def isPySpace (c : Char) : Bool :=
  c = ' ' || c = '\t' || c = '\n' || c = '\r' || c = Char.ofNat 11 || c = Char.ofNat 12

/-- Python `s.strip()`: drop leading and trailing whitespace. -/
def pyStrip (s : List Char) : List Char :=
  ((s.dropWhile isPySpace).reverse.dropWhile isPySpace).reverse

/-- Python `s[-6:]`: the last six characters (the whole string when it is
shorter than six characters). -/
def lastSix (s : List Char) : List Char :=
  s.drop (s.length - 6)

/-- Python `s.rjust(6)`: left-pad with spaces to length six. -/
def rjustSix (s : List Char) : List Char :=
  List.replicate (6 - s.length) ' ' ++ s

/-- Characters of `ALLOWED_CHARS`: ASCII letters, digits, and the space. -/
def allowedChar (c : Char) : Bool :=
  c.isAlpha || c.isDigit || c = ' '

/-- Truncation and padding stage of `sanitize_name`: when the input is
longer than six characters, strip it and keep the last six; then pad on
the left with spaces when the result is shorter than six. -/
def normalizeName (s : List Char) : List Char :=
  let s1 := if 6 < s.length then lastSix (pyStrip s) else s
  if s1.length < 6 then rjustSix s1 else s1

/-- Validation and encoding stage of `sanitize_name`: fail on the first
character outside `ALLOWED_CHARS` (naming the whole candidate and the
offending character, as the raise site does), else encode to bytes
(`name.encode()`; every character is validated ASCII here, so UTF-8 is
one byte per character). -/
def checkEncode (v : List Char) : Except SSPatcherError (List Nat) :=
  match v.find? (fun c => ! allowedChar c) with
  | some c => .error (.invalidCharacter v c)
  | none => .ok (v.map Char.toNat)

/-- Translation of `sanitize_name`: truncate/pad, then validate and
encode. -/
def sanitize_name (s : List Char) : Except SSPatcherError (List Nat) :=
  checkEncode (normalizeName s)

/-- Python `name.split('_', 1)` when it succeeds: the part before the
first underscore and the part after it. -/
def splitUnderscore (s : List Char) : Option (List Char × List Char) :=
  if ('_' ∈ s) then some (s.takeWhile (fun c => c ≠ '_'), (s.dropWhile (fun c => c ≠ '_')).drop 1)
  else none

/-- Python `int(s)` on a string with no underscores: optional surrounding
whitespace, an optional sign, then at least one decimal digit; `none`
models the `ValueError` that `int()` raises otherwise. -/
def pyIntParse (s : List Char) : Option Int :=
  let t := pyStrip s
  let core := if t.take 1 = ['-'] ∨ t.take 1 = ['+'] then t.drop 1 else t
  if core ≠ [] ∧ core.all Char.isDigit then
    let mag : Int := Int.ofNat (core.foldl (fun a c => a * 10 + (c.toNat - 48)) 0)
    some (if t.take 1 = ['-'] then -mag else mag)
  else none

/-- Translation of `_get_index_from_filename`: applied to a dict item
`(name, data)`; a name without an underscore raises `SSPatcherError`
(the `ValueError` from unpacking `split` is caught), but a non-integer
part before the first underscore raises an *uncaught* `ValueError`,
because `int(i)` sits outside the try block. -/
def _get_index_from_filename (wt : List Char × List Nat) : Except PyErr Int :=
  let name := wt.1
  match splitUnderscore name with
  | none => .error (.ssp (.formatError name))
  | some (i, _) =>
    match pyIntParse i with
    | none => .error .valueError
    | some n => .ok n

/-- Translation of `_get_name_from_filename`: the part after the first
underscore, stripped; a name without an underscore raises
`SSPatcherError`. -/
def _get_name_from_filename (name : List Char) : Except PyErr (List Char) :=
  match splitUnderscore name with
  | none => .error (.ssp (.formatError name))
  | some (_, rest) => .ok (pyStrip rest)

/-- The macOS artifact filename skipped by the loader. -/
def dsStore : List Char := ['.', 'D', 'S', '_', 'S', 't', 'o', 'r', 'e']

/-- Position of the last '.' in a filename, if any. -/
def lastDotIdx (n : List Char) : Option Nat :=
  if ('.' ∈ n) then some (n.length - 1 - n.reverse.indexOf '.') else none

/-- Python `os.path.splitext(fn)[0]`: cut at the last dot, except that a
name consisting of leading dots only before that dot (such as
`.DS_Store`) keeps its full text. -/
def stemOf (n : List Char) : List Char :=
  match lastDotIdx n with
  | none => n
  | some i => if (n.take i).any (fun c => c ≠ '.') then n.take i else n

/-- Dictionary-building loop of `read_wavetables_from_files`: skip
`.DS_Store`, take the filename stem as the raw name, reject a stem
already present, reject contents that are not exactly one block long,
else append.  Python dicts preserve insertion order, so the dict is a
key-unique association list. -/
def buildDict (acc : List (List Char × List Nat)) :
    List (List Char × List Nat) → Except PyErr (List (List Char × List Nat))
  | [] => .ok acc
  | (fn, data) :: rest =>
    if fn = dsStore then buildDict acc rest
    else
      let name := stemOf fn
      if acc.any (fun p => p.1 = name) then .error (.ssp (.duplicateName name))
      else if data.length ≠ WT_DATA_LENGTH then
        .error (.ssp (.wrongSize name WT_DATA_LENGTH data.length))
      else buildDict (acc ++ [(name, data)]) rest

/-- Python string comparison on `List Char` (lexicographic by code
point), as a boolean less-or-equal. -/
def lexLe : List Char → List Char → Bool
  | [], _ => true
  | _ :: _, [] => false
  | a :: as, b :: bs => if a < b then true else if b < a then false else lexLe as bs

/-- Sort key of the non-prefixed branch: compare items by
`item[0].strip()` (the stripped raw stem). -/
def stemLe (a b : List Char × List Nat) : Bool :=
  lexLe (pyStrip a.1) (pyStrip b.1)

/-- The `sorted(wavetables.items(), key=lambda item: item[0].strip())`
call of the non-prefixed branch.  CPython's `sorted` is a stable sort;
stable sorts of one list under one total preorder all produce the same
output, so the stable `List.insertionSort` is an exact model (and, unlike
`List.mergeSort`, it is structurally recursive and so computes inside the
kernel). -/
def sortItems (d : List (List Char × List Nat)) : List (List Char × List Nat) :=
  d.insertionSort (fun a b => stemLe a b = true)

/-- Python `dict[k] = v`: replace the value in place when the key exists
(keeping its position), else append. -/
def dictInsert (l : List (List Nat × List Nat)) (k : List Nat) (v : List Nat) :
    List (List Nat × List Nat) :=
  if l.any (fun p => p.1 = k) then l.map (fun p => if p.1 = k then (k, v) else p)
  else l ++ [(k, v)]

/-- The dict comprehension `{sanitize_name(name): data for name, data in
sorted(...)}` of the non-prefixed branch, evaluated item by item in sort
order with the first `sanitize_name` failure propagating. -/
def sanitizeFold (acc : List (List Nat × List Nat)) :
    List (List Char × List Nat) → Except PyErr (List (List Nat × List Nat))
  | [] => .ok acc
  | (n, data) :: rest =>
    match sanitize_name n with
    | .error e => .error (.ssp e)
    | .ok k => sanitizeFold (dictInsert acc k data) rest

/-- The dict comprehension of the prefixed branch, which first derives
the stored name with `_get_name_from_filename`. -/
def sanitizePfxFold (acc : List (List Nat × List Nat)) :
    List (List Char × List Nat) → Except PyErr (List (List Nat × List Nat))
  | [] => .ok acc
  | (n, data) :: rest =>
    match _get_name_from_filename n with
    | .error e => .error e
    | .ok nm =>
      match sanitize_name nm with
      | .error e => .error (.ssp e)
      | .ok k => sanitizePfxFold (dictInsert acc k data) rest

/-- The `sorted(wavetables.items(), key=_get_index_from_filename)` call of
the prefixed branch.  CPython computes every key before comparing, so a
key failure propagates before any reordering; the sort itself compares
the integer keys and is stable. -/
def sortByIdx (d : List (List Char × List Nat)) :
    Except PyErr (List (List Char × List Nat)) :=
  match d.mapM (fun it => (_get_index_from_filename it).map (fun i => (i, it))) with
  | .error e => .error e
  | .ok dec => .ok ((dec.insertionSort (fun a b => a.1 ≤ b.1)).map (fun p => p.2))

/-- Translation of `read_wavetables_from_files` on a directory listing:
build the raw dict, sort (by stripped stem, or by integer filename
index when `is_prefixed`), re-key through `sanitize_name`, then check
the final entry count. -/
def read_wavetables_from_files (files : List (List Char × List Nat))
    ( is_prefixed : Bool) : Except PyErr (List (List Nat × List Nat)) := do
  let d ← buildDict [] files
  let w ←
    if is_prefixed then do
      let items ← sortByIdx d
      sanitizePfxFold [] items
    else
      sanitizeFold [] (sortItems d)
  if w.length ≠ NUM_WT then .error (.ssp (.wrongCount NUM_WT w.length))
  else pure w

/-- Translation of `check_image_size`, applied to the byte size that
`os.path.getsize` returns for the image file. -/
def check_image_size (size : Nat) : Except PyErr Unit :=
  if size ≠ IMAGE_SIZE_SHORT ∧ size ≠ IMAGE_SIZE_LONG then
    .error (.ssp (.badImageSize size IMAGE_SIZE_SHORT IMAGE_SIZE_LONG))
  else .ok ()

/-- The name region bytes built by `patch` and `derive_names`:
`WT_NAME_PREFIX + WT_NAME_PREFIX.join(names)`. -/
def bytesJoinSep (sep : List Nat) : List (List Nat) → List Nat
  | [] => []
  | x :: xs =>
    match xs with
    | [] => x
    | _ :: _ => x ++ sep ++ bytesJoinSep sep xs

/-- Full name region image of a name list. -/
def nameData (names : List (List Nat)) : List Nat :=
  WT_NAME_PFX ++ bytesJoinSep WT_NAME_PFX names

/-- Translation of `patch`: check the destination size, load the
wavetable set from the source directory listing (always with
`is_prefixed` left at its default `False`), then splice the name region
and the data region into the image in place.  The patched image bytes
are returned. -/
def patch (files : List (List Char × List Nat)) (img : List Nat) :
    Except PyErr (List Nat) := do
  let _ ← check_image_size img.length
  let m ← read_wavetables_from_files files false
  let img1 := writeAt img WT_NAME_OFFSET (nameData (m.map (fun p => p.1)))
  let img2 := writeAt img1 WT_DATA_OFFSET ((m.map (fun p => p.2)).flatten)
  pure img2

/-- Translation of `derive_names`, with the IntelHex container abstracted
to (absolute offset, raw bytes) pairs: the byte content equals what
`patch` would write, only the container differs. -/
def derive_names (files : List (List Char × List Nat)) ( is_prefixed : Bool) :
    Except PyErr ((Nat × List Nat) × (Nat × List Nat)) := do
  let m ← read_wavetables_from_files files is_prefixed
  pure ((WT_NAME_OFFSET, nameData (m.map (fun p => p.1))),
        (WT_DATA_OFFSET, (m.map (fun p => p.2)).flatten))

/-- Synthetic 1024-byte name region: 128 records b'  ABCDEF'. -/
def demoNameBlock : List Nat :=
  (List.replicate 128 ([32, 32, 65, 66, 67, 68, 69, 70])).flatten

/-- Synthetic short-size image with the synthetic name region in place
and zeros elsewhere. -/
def demoImage : List Nat :=
  List.replicate WT_NAME_OFFSET 0 ++ demoNameBlock ++
    List.replicate (IMAGE_SIZE_SHORT - WT_NAME_OFFSET - 1024) 0

/-- Total version of the sanitized key of a stem (list of bytes); equal
to the `sanitize_name` result whenever that result is a success.  Used
only to state properties of successful loads. -/
def sanKey (s : List Char) : List Nat :=
  (sanitize_name s).toOption.getD []

/-- The ordered wavetable set a successful non-prefixed load produces:
the raw (stem, data) dict in listing order, stable-sorted by stripped
stem, re-keyed through the sanitizer. -/
def loadResult (files : List (List Char × List Nat)) : List (List Nat × List Nat) :=
  (sortItems (files.map (fun f => (stemOf f.1, f.2)))).map (fun p => (sanKey p.1, p.2))

/-- The image bytes a successful patch produces: the name region and then
the data region spliced in place. -/
def patchedImage (files : List (List Char × List Nat)) (img : List Nat) : List Nat :=
  writeAt (writeAt img WT_NAME_OFFSET (nameData ((loadResult files).map (fun q => q.1))))
    WT_DATA_OFFSET (((loadResult files).map (fun q => q.2)).flatten)

/-- Alternating 0,1 byte pattern of length `2 * n`: synthetic audio data
with no two adjacent equal bytes, hence no run longer than one. -/
def altList : Nat → List Nat
  | 0 => []
  | n + 1 => 0 :: 1 :: altList n

/-- Synthetic wavetable data block (8192 alternating bytes). -/
def demoData : List Nat := altList 4096

/-- Synthetic directory listing of 128 distinct well-formed files
wt0 .. wt127, each holding the synthetic block. -/
def demoFiles : List (List Char × List Nat) :=
  (List.range 128).map (fun i => ('w' :: 't' :: Nat.toDigits 10 i, demoData))

/-- All-zero image of the accepted short size, the patch target of the
demonstrations. -/
def demoPatchImage : List Nat := List.replicate IMAGE_SIZE_SHORT 0

/-- Filesystem state for `extract`: the directories that exist and the
(path, contents) files.  Paths are flat strings; a file created inside a
directory gets the path `dir ++ '/' :: name`. -/
structure FS where
  dirs : List (List Char)
  files : List (List Char × List Nat)

/-- Python `os.path.exists`: true for a directory or a file. -/
def pathExists (fs : FS) (p : List Char) : Bool :=
  fs.dirs.contains p || fs.files.any (fun f => f.1 = p)

/-- Contents of a file, when it exists. -/
def lookupFile (fs : FS) (p : List Char) : Option (List Nat) :=
  (fs.files.find? (fun f => f.1 = p)).map (fun f => f.2)

/-- Create or overwrite a file at a path. -/
def upsertFile (fs : FS) (p : List Char) (b : List Nat) : FS :=
  if fs.files.any (fun f => f.1 = p) then
    ⟨fs.dirs, fs.files.map (fun f => if f.1 = p then (p, b) else f)⟩
  else ⟨fs.dirs, fs.files ++ [(p, b)]⟩

/-- Open-for-write of `dir/name`: fails with an I/O error when the
directory does not exist, as `wave.open`/`open(..., 'wb')` do. -/
def writeInDir (fs : FS) (dir fname : List Char) (b : List Nat) :
    Except PyErr FS :=
  if fs.dirs.contains dir then .ok (upsertFile fs (dir ++ '/' :: fname) b)
  else .error .ioError

/-- Contents of the wav file written for a block.  The `wave` library's
RIFF container encoding is external to the repository; it is abstracted
here as carrying the frame bytes, which no claim inspects. -/
def wavFileContents (table : List Nat) : List Nat := table

/-- Hardcoded directory that `extract` writes its test wav files into,
resolved against the current working directory. -/
def testWavsDir : List Char := ['t', 'e', 's', 't', '_', 'w', 'a', 'v', 's']

/-- The `.wav` filename suffix. -/
def dotWav : List Char := ['.', 'w', 'a', 'v']

/-- The `.raw` filename suffix. -/
def dotRaw : List Char := ['.', 'r', 'a', 'w']

/-- Lowercase hexadecimal digit. -/
def hexDigitChar (n : Nat) : Char :=
  if n < 10 then Char.ofNat (48 + n) else Char.ofNat (87 + n)

/-- One byte of the CPython bytes repr, with `quote` the chosen quote
character: the quote and the backslash are backslash-escaped, tab,
newline and carriage return get their two-character escapes, other
non-printable bytes become lowercase hex escapes, printable bytes stand
for themselves. -/
def pyByteEscape (quote c : Nat) : List Char :=
  if c = quote ∨ c = 0x5c then [Char.ofNat 0x5c, Char.ofNat c]
  else if c = 9 then [Char.ofNat 0x5c, 't']
  else if c = 10 then [Char.ofNat 0x5c, 'n']
  else if c = 13 then [Char.ofNat 0x5c, 'r']
  else if c < 0x20 ∨ 0x7f ≤ c then
    [Char.ofNat 0x5c, 'x', hexDigitChar (c / 16), hexDigitChar (c % 16)]
  else [Char.ofNat c]

/-- Python `str()` of a bytes object (which is its repr), as produced by
`"{}".format(name)` on line 183: a `b` then the quoted escaped bytes.
The quote is a single quote unless the bytes contain one and no double
quote. -/
def pyBytesRepr (b : List Nat) : List Char :=
  let quote : Nat := if 0x27 ∈ b ∧ ¬ (0x22 ∈ b) then 0x22 else 0x27
  'b' :: Char.ofNat quote :: ((b.map (pyByteEscape quote)).flatten ++ [Char.ofNat quote])

/-- Strict UTF-8 decoding, the semantics of Python `bytes.decode()`:
rejects truncated sequences, bad continuation bytes, overlong forms,
surrogates and code points above 0x10FFFF; `none` models the
`UnicodeDecodeError` it raises. -/
def utf8Decode : List Nat → Option (List Char)
  | [] => some []
  | b :: rest =>
    if b < 0x80 then
      (utf8Decode rest).map (fun s => Char.ofNat b :: s)
    else if 0xc2 ≤ b ∧ b ≤ 0xdf then
      match rest with
      | b2 :: rest2 =>
        if 0x80 ≤ b2 ∧ b2 ≤ 0xbf then
          (utf8Decode rest2).map (fun s =>
            Char.ofNat ((b - 0xc0) * 0x40 + (b2 - 0x80)) :: s)
        else none
      | [] => none
    else if 0xe0 ≤ b ∧ b ≤ 0xef then
      match rest with
      | b2 :: b3 :: rest3 =>
        if (if b = 0xe0 then 0xa0 ≤ b2 ∧ b2 ≤ 0xbf
            else if b = 0xed then 0x80 ≤ b2 ∧ b2 ≤ 0x9f
            else 0x80 ≤ b2 ∧ b2 ≤ 0xbf) ∧ 0x80 ≤ b3 ∧ b3 ≤ 0xbf then
          (utf8Decode rest3).map (fun s =>
            Char.ofNat ((b - 0xe0) * 0x1000 + (b2 - 0x80) * 0x40 + (b3 - 0x80)) :: s)
        else none
      | _ => none
    else if 0xf0 ≤ b ∧ b ≤ 0xf4 then
      match rest with
      | b2 :: b3 :: b4 :: rest4 =>
        if (if b = 0xf0 then 0x90 ≤ b2 ∧ b2 ≤ 0xbf
            else if b = 0xf4 then 0x80 ≤ b2 ∧ b2 ≤ 0x8f
            else 0x80 ≤ b2 ∧ b2 ≤ 0xbf) ∧ 0x80 ≤ b3 ∧ b3 ≤ 0xbf ∧ 0x80 ≤ b4 ∧ b4 ≤ 0xbf then
          (utf8Decode rest4).map (fun s =>
            Char.ofNat ((b - 0xf0) * 0x40000 + (b2 - 0x80) * 0x1000 +
              (b3 - 0x80) * 0x40 + (b4 - 0x80)) :: s)
        else none
      | _ => none
    else none

/-- Per-wavetable write loop of `extract`: for each (name, table) pair,
first write the wav file — whose path renders the *bytes* name through
`str.format`, producing `test_wavs/b'<name>'.wav` — then decode the name
(an uncaught `UnicodeDecodeError` on non-UTF-8 names) and write
`<dest>/<decoded-name>.raw`; a failure aborts the loop, leaving the
writes made so far. -/
def extractLoop (fs : FS) (dest : List Char) :
    List (List Nat × List Nat) → Except PyErr Unit × FS
  | [] => (.ok (), fs)
  | (name, table) :: rest =>
    match writeInDir fs testWavsDir (pyBytesRepr name ++ dotWav) (wavFileContents table) with
    | .error e => (.error e, fs)
    | .ok fs1 =>
      match utf8Decode name with
      | none => (.error .unicodeDecodeError, fs1)
      | some s =>
        match writeInDir fs1 dest (s ++ dotRaw) table with
        | .error e => (.error e, fs1)
        | .ok fs2 => extractLoop fs2 dest rest

/-- Translation of `extract` against the filesystem state: check the
source image size, refuse an existing destination, create the
destination directory, read names and data from the image, check the
lengths, then run the write loop. -/
def extract (fs : FS) (source dest : List Char) : Except PyErr Unit × FS :=
  match lookupFile fs source with
  | none => (.error .ioError, fs)
  | some img =>
    match check_image_size img.length with
    | .error e => (.error e, fs)
    | .ok _ =>
      if pathExists fs dest then (.error (.ssp (.destinationExists dest)), fs)
      else
        let fs1 : FS := ⟨dest :: fs.dirs, fs.files⟩
        match read_wt_names img with
        | .error e => (.error e, fs1)
        | .ok names =>
          match read_wt_data img with
          | .error e => (.error e, fs1)
          | .ok tables =>
            if names.length = tables.length ∧ tables.length = NUM_WT then
              extractLoop fs1 dest (names.zip tables)
            else (.error (.ssp (.lengthMismatch names.length tables.length NUM_WT)), fs1)

/-- Parsed command-line arguments of the `__main__` block: the
`--sortprefix` flag, the image named by `-i` (as its bytes), and the
directory named by `-d` (as its listing). -/
structure Args where
  sortPfx : Bool
  image : List Nat
  directory : List (List Char × List Nat)

/-- The `--patch` action of the `__main__` dispatch: calls `patch` with
the directory and the image; the `--sortprefix` flag is not passed. -/
def run_patch_action (a : Args) : Except PyErr (List Nat) :=
  patch a.directory a.image

/-- The `--intelhex` action of the `__main__` dispatch: calls
`derive_names` with the directory and the `--sortprefix` flag. -/
def run_hex_action (a : Args) : Except PyErr ((Nat × List Nat) × (Nat × List Nat)) :=
  derive_names a.directory a.sortPfx

/-- Synthetic valid source image for the extraction demonstrations:
synthetic name region, alternating-byte data region, zeros elsewhere. -/
def demoFullImage : List Nat :=
  List.replicate WT_NAME_OFFSET 0 ++ demoNameBlock ++
    List.replicate (WT_DATA_OFFSET - WT_NAME_OFFSET - 1024) 0 ++
    altList (WT_DATA_LENGTH * NUM_WT / 2)

/-- Path of the synthetic source image. -/
def demoImagePath : List Char := ['i', 'm', 'g', '.', 'b', 'i', 'n']

/-- Destination directory path for the extraction demonstrations. -/
def demoDestPath : List Char := ['o', 'u', 't']

/-- Filesystem holding only the synthetic source image (no `test_wavs`
directory). -/
def demoFS : FS := ⟨[], [(demoImagePath, demoFullImage)]⟩

/-- Filesystem holding the synthetic source image plus an existing
`test_wavs` directory. -/
def demoFS2 : FS := ⟨[testWavsDir], [(demoImagePath, demoFullImage)]⟩

/-- Files present after a successful demonstration extraction from
`demoFS2`: the source image plus the single wav file and single raw
file that the 128 identically-named wavetables repeatedly overwrite.
The wav path renders the bytes name through `str.format`. -/
def demoExtractFiles : List (List Char × List Nat) :=
  [(demoImagePath, demoFullImage),
   (testWavsDir ++ '/' :: (pyBytesRepr [65, 66, 67, 68, 69, 70] ++ dotWav),
     wavFileContents (altList 4096)),
   (demoDestPath ++ '/' :: (['A', 'B', 'C', 'D', 'E', 'F'] ++ dotRaw), altList 4096)]

/-! Basic lemmas about the embedded operations. -/

/-- Stripping never lengthens a string. -/
theorem pyStrip_length_le (s : List Char) : (pyStrip s).length ≤ s.length := by
  unfold pyStrip
  calc ((s.dropWhile isPySpace).reverse.dropWhile isPySpace).reverse.length
      = ((s.dropWhile isPySpace).reverse.dropWhile isPySpace).length := List.length_reverse _
    _ ≤ (s.dropWhile isPySpace).reverse.length := (List.dropWhile_sublist _).length_le
    _ = (s.dropWhile isPySpace).length := List.length_reverse _
    _ ≤ s.length := (List.dropWhile_sublist _).length_le

/-- Length of the last-six-characters truncation. -/
theorem lastSix_length (s : List Char) : (lastSix s).length = min 6 s.length := by
  unfold lastSix
  rw [List.length_drop]
  omega

/-- Length of the space padding. -/
theorem rjustSix_length (s : List Char) (h : s.length ≤ 6) :
    (rjustSix s).length = 6 := by
  unfold rjustSix
  rw [List.length_append, List.length_replicate]
  omega

/-- The truncation/padding stage always produces exactly six characters. -/
theorem normalizeName_length (s : List Char) : (normalizeName s).length = 6 := by
  unfold normalizeName
  by_cases h6 : 6 < s.length
  · simp only [h6, if_true]
    by_cases hshort : (lastSix (pyStrip s)).length < 6
    · simp only [hshort, if_true]
      exact rjustSix_length _ (by omega)
    · simp only [hshort, if_false]
      have := lastSix_length (pyStrip s)
      omega
  · simp only [h6, if_false]
    by_cases hshort : s.length < 6
    · simp only [hshort, if_true]
      exact rjustSix_length _ (by omega)
    · simp only [hshort, if_false]
      omega

/-- Successful sanitization yields exactly six bytes. -/
theorem sanitize_name_ok_length (s : List Char) (r : List Nat)
    (h : sanitize_name s = .ok r) : r.length = 6 := by
  unfold sanitize_name checkEncode at h
  rcases hf : (normalizeName s).find? (fun c => ! allowedChar c) with _ | c
  · rw [hf] at h
    simp only [Except.ok.injEq] at h
    subst h
    rw [List.length_map]
    exact normalizeName_length s
  · rw [hf] at h
    exact absurd h (by simp)

/-- Every error of `sanitize_name` is an invalid-character error on the
normalized candidate. -/
theorem sanitize_name_error_shape (s : List Char) (e : SSPatcherError)
    (h : sanitize_name s = .error e) :
    ∃ c, allowedChar c = false ∧ c ∈ normalizeName s ∧
      e = .invalidCharacter (normalizeName s) c := by
  unfold sanitize_name checkEncode at h
  rcases hf : (normalizeName s).find? (fun c => ! allowedChar c) with _ | c0
  · rw [hf] at h
    exact absurd h (by simp)
  · rw [hf] at h
    simp only [Except.error.injEq] at h
    refine ⟨c0, ?_, List.mem_of_find?_eq_some hf, h.symm⟩
    have := List.find?_some hf
    simpa using this

/-! Claim theorems. -/

/-- Claim C7: check_image_size fails with BadImageSizeError, reporting the
actual size and the expected sizes, if and only if the file's byte length
is not exactly 0x200000 and not exactly 0x800000; for a file of either of
those two exact sizes it succeeds. -/
theorem check_image_size_iff :
    ∀ n : Nat,
      (check_image_size n =
          .error (.ssp (.badImageSize n IMAGE_SIZE_SHORT IMAGE_SIZE_LONG)) ↔
        ¬ (n = IMAGE_SIZE_SHORT ∨ n = IMAGE_SIZE_LONG))
      ∧ (check_image_size n = .ok () ↔ (n = IMAGE_SIZE_SHORT ∨ n = IMAGE_SIZE_LONG)) := by
  intro n
  unfold check_image_size
  by_cases h : n ≠ IMAGE_SIZE_SHORT ∧ n ≠ IMAGE_SIZE_LONG
  · rw [if_pos h]
    constructor
    · simp only [iff_true_intro rfl, true_iff]
      tauto
    · constructor
      · intro hc
        exact absurd hc (by simp)
      · tauto
  · rw [if_neg h]
    constructor
    · constructor
      · intro hc
        exact absurd hc (by simp)
      · tauto
    · simp only [iff_true_intro rfl, true_iff]
      tauto

/-- Claim C6: sanitize_name implements the documented contract.  First
conjunct: if the stripped input exceeds 6 characters, the candidate is the
last 6 characters of the stripped input.  Second and third conjuncts: when
the candidate after any stripping is shorter than 6 (either a short input
that was never stripped, or a long input whose stripped form shrank below
6), it is right-justified and left-padded with spaces to 6.  Fourth and
fifth conjuncts: a character of the candidate outside ASCII letters,
digits, and space — and only such a character — fails the function with
InvalidCharacterError naming the offending character.  Final conjuncts:
the three examples sanitize_name("verylongname") = b"ngname",
sanitize_name("1") = b"     1", sanitize_name("") = b"      ". -/
theorem sanitize_name_contract :
    (∀ s : List Char, 6 < (pyStrip s).length →
        sanitize_name s = checkEncode (lastSix (pyStrip s)))
    ∧ (∀ s : List Char, s.length < 6 → sanitize_name s = checkEncode (rjustSix s))
    ∧ (∀ s : List Char, 6 < s.length → (lastSix (pyStrip s)).length < 6 →
        sanitize_name s = checkEncode (rjustSix (lastSix (pyStrip s))))
    ∧ (∀ s : List Char, (∃ c ∈ normalizeName s, allowedChar c = false) →
        ∃ c, allowedChar c = false ∧ c ∈ normalizeName s ∧
          sanitize_name s = .error (.invalidCharacter (normalizeName s) c))
    ∧ (∀ (s : List Char) (e : SSPatcherError), sanitize_name s = .error e →
        ∃ c, allowedChar c = false ∧ c ∈ normalizeName s ∧
          e = .invalidCharacter (normalizeName s) c)
    ∧ sanitize_name ['v','e','r','y','l','o','n','g','n','a','m','e'] =
        .ok [110, 103, 110, 97, 109, 101]
    ∧ sanitize_name ['1'] = .ok [32, 32, 32, 32, 32, 49]
    ∧ sanitize_name [] = .ok [32, 32, 32, 32, 32, 32] := by
  refine ⟨?_, ?_, ?_, ?_, ?_, by decide, by decide, by decide⟩
  · intro s h
    have hlen : 6 < s.length := lt_of_lt_of_le h (pyStrip_length_le s)
    have hl6 : (lastSix (pyStrip s)).length = 6 := by
      rw [lastSix_length]; omega
    unfold sanitize_name normalizeName
    simp only [hlen, if_true, hl6]
    norm_num
  · intro s h
    have hlen : ¬ 6 < s.length := by omega
    unfold sanitize_name normalizeName
    simp only [hlen, if_false, h, if_true]
  · intro s hlen hshort
    unfold sanitize_name normalizeName
    simp only [hlen, if_true, hshort]
  · intro s ⟨c, hc, hbad⟩
    rcases hf : (normalizeName s).find? (fun c => ! allowedChar c) with _ | c0
    · rw [List.find?_eq_none] at hf
      have hcontra := hf c hc
      rw [hbad] at hcontra
      simp at hcontra
    · refine ⟨c0, ?_, List.mem_of_find?_eq_some hf, ?_⟩
      · have := List.find?_some hf
        simpa using this
      · unfold sanitize_name checkEncode
        rw [hf]
  · exact sanitize_name_error_shape

/-- Witness for C6: the first three conjuncts applied at concrete inputs
with their hypotheses discharged by computation. -/
theorem sanitize_name_contract_witness :
    sanitize_name ['v','e','r','y','l','o','n','g','n','a','m','e'] =
      checkEncode (lastSix (pyStrip ['v','e','r','y','l','o','n','g','n','a','m','e']))
    ∧ sanitize_name ['1'] = checkEncode (rjustSix ['1'])
    ∧ sanitize_name ['a','b','c',' ',' ',' ',' '] =
      checkEncode (rjustSix (lastSix (pyStrip ['a','b','c',' ',' ',' ',' ']))) :=
  ⟨sanitize_name_contract.1 _ (by decide),
   sanitize_name_contract.2.1 _ (by decide),
   sanitize_name_contract.2.2.1 _ (by decide) (by decide)⟩

/-- Claim C4, counterexample: with the prefix-sort option set, a filename
whose component before the first underscore is not a decimal integer does
not produce the claimed FormatError/SSPatcherError: it produces an
uncaught Python ValueError, because `int(i)` sits outside the
try/except in `_get_index_from_filename`. -/
theorem prefix_sort_nonint_counterexample :
    read_wavetables_from_files [(['a', '_', 'b'], List.replicate 8192 0)] true =
      .error .valueError := by
  have h0 : (List.replicate 8192 (0 : Nat)).length = WT_DATA_LENGTH := by
    rw [List.length_replicate]; rfl
  simp only [read_wavetables_from_files, buildDict, h0, ne_eq, not_true_eq_false, if_false,
    ite_false, ite_true]
  decide

/-- Claim C4 (amended): with the prefix-sort option, a filename with no
underscore fails with the FormatError kind of SSPatcherError, while a
filename whose component before the first underscore is not a decimal
integer fails with an uncaught Python ValueError that is not an
SSPatcherError; a parseable integer component succeeds. -/
theorem prefix_filename_error_kinds :
    (∀ (name : List Char) (data : List Nat), splitUnderscore name = none →
        _get_index_from_filename (name, data) = .error (.ssp (.formatError name)))
    ∧ (∀ (name : List Char) (data : List Nat) (pre rest : List Char),
        splitUnderscore name = some (pre, rest) → pyIntParse pre = none →
        _get_index_from_filename (name, data) = .error .valueError)
    ∧ (∀ (name : List Char) (data : List Nat) (pre rest : List Char) (k : Int),
        splitUnderscore name = some (pre, rest) → pyIntParse pre = some k →
        _get_index_from_filename (name, data) = .ok k)
    ∧ (∀ name : List Char, splitUnderscore name = none ↔ ¬ ('_' ∈ name)) := by
  refine ⟨?_, ?_, ?_, ?_⟩
  · intro name data h
    unfold _get_index_from_filename
    simp only [h]
  · intro name data pre rest hs hp
    unfold _get_index_from_filename
    simp only [hs, hp]
  · intro name data pre rest k hs hp
    unfold _get_index_from_filename
    simp only [hs, hp]
  · intro name
    unfold splitUnderscore
    by_cases h : '_' ∈ name
    · simp [h]
    · simp [h]

/-- Witness for the amended C4: the three error/success kinds at concrete
filenames. -/
theorem prefix_filename_error_kinds_witness :
    _get_index_from_filename (['a', 'b'], []) = .error (.ssp (.formatError ['a', 'b']))
    ∧ _get_index_from_filename (['a', '_', 'b'], []) = .error .valueError
    ∧ _get_index_from_filename (['2', '_', 'b'], []) = .ok 2 :=
  ⟨prefix_filename_error_kinds.1 ['a', 'b'] [] (by decide),
   prefix_filename_error_kinds.2.1 ['a', '_', 'b'] [] ['a'] ['b'] (by decide) (by decide),
   prefix_filename_error_kinds.2.2.1 ['2', '_', 'b'] [] ['2'] ['b'] 2 (by decide) (by decide)⟩

/-- Unfolding lemma for monadic bind on an Except error. -/
theorem except_bind_error {ε α β : Type} (e : ε) (f : α → Except ε β) :
    (Except.error e >>= f) = Except.error e := rfl

/-- Unfolding lemma for monadic bind on an Except success. -/
theorem except_bind_ok {ε α β : Type} (a : α) (f : α → Except ε β) :
    (Except.ok a >>= f) = f a := rfl

/-- Unfolding lemma for pure in the Except monad. -/
theorem except_pure {ε α : Type} (a : α) : (pure a : Except ε α) = Except.ok a := rfl

/-- When the raw stems of the listed files (ignoring `.DS_Store`) are
pairwise distinct and no accumulator key collides with them, the
dictionary-building loop never reports a duplicate name. -/
theorem buildDict_no_duplicate :
    ∀ (files acc : List (List Char × List Nat)),
      ((files.filter (fun f => f.1 ≠ dsStore)).map (fun f => stemOf f.1)).Pairwise (· ≠ ·) →
      (∀ p ∈ acc, ∀ f ∈ files, f.1 ≠ dsStore → p.1 ≠ stemOf f.1) →
      ∀ n : List Char, buildDict acc files ≠ .error (.ssp (.duplicateName n)) := by
  intro files
  induction files with
  | nil =>
    intro acc _ _ n
    simp [buildDict]
  | cons fd rest ih =>
    intro acc hpw hacc n
    obtain ⟨fn, d⟩ := fd
    unfold buildDict
    by_cases hds : fn = dsStore
    · rw [if_pos hds]
      apply ih
      · have : (((fn, d) :: rest).filter (fun f => f.1 ≠ dsStore)) =
            rest.filter (fun f => f.1 ≠ dsStore) := by
          rw [List.filter_cons]
          simp [hds]
        rw [this] at hpw
        exact hpw
      · intro p hp f hf hfds
        exact hacc p hp f (List.mem_cons_of_mem _ hf) hfds
    · rw [if_neg hds]
      have hany : acc.any (fun p => p.1 = stemOf fn) = false := by
        rw [List.any_eq_false]
        intro p hp
        have := hacc p hp (fn, d) (List.mem_cons_self _ _) hds
        simpa using this
      simp only [hany, Bool.false_eq_true, if_false, ite_false]
      by_cases hsz : d.length ≠ WT_DATA_LENGTH
      · rw [if_pos hsz]
        intro hcontra
        simp at hcontra
      · rw [if_neg hsz]
        have hfilter : (((fn, d) :: rest).filter (fun f => f.1 ≠ dsStore)) =
            (fn, d) :: rest.filter (fun f => f.1 ≠ dsStore) := by
          rw [List.filter_cons]
          simp [hds]
        rw [hfilter, List.map_cons, List.pairwise_cons] at hpw
        apply ih
        · exact hpw.2
        · intro p hp f hf hfds
          rcases List.mem_append.mp hp with hold | hnew
          · exact hacc p hold f (List.mem_cons_of_mem _ hf) hfds
          · have hpe : p = (stemOf fn, d) := by simpa using hnew
            rw [hpe]
            apply hpw.1
            rw [List.mem_map]
            refine ⟨f, ?_, rfl⟩
            rw [List.mem_filter]
            exact ⟨hf, by simpa using hfds⟩

/-- The sanitizing re-keying loop never reports a duplicate name: its only
failures are invalid-character errors. -/
theorem sanitizeFold_no_duplicate :
    ∀ (items acc : List _) (n : List Char),
      sanitizeFold acc items ≠ .error (.ssp (.duplicateName n)) := by
  intro items
  induction items with
  | nil =>
    intro acc n
    simp [sanitizeFold]
  | cons it rest ih =>
    intro acc n
    obtain ⟨nm, d⟩ := it
    unfold sanitizeFold
    rcases hs : sanitize_name nm with e | k
    · obtain ⟨c, _, _, hshape⟩ := sanitize_name_error_shape nm e hs
      intro hcontra
      rw [hshape] at hcontra
      simp at hcontra
    · exact ih _ n

/-- Claim C3, counterexample: two distinct filenames whose stems sanitize
to the same six-character name do not make read_wavetables_from_files
fail with the duplicate-name error; the colliding keys silently merge in
the dict comprehension and the load fails with the wrong-count error
instead (here 1 entry remains of 2 files). -/
theorem sanitized_duplicate_counterexample :
    sanitize_name (stemOf ['a', 'a', 'a', 'a', 'a', 'a', 'a']) =
      sanitize_name (stemOf ['a', 'a', 'a', 'a', 'a', 'a'])
    ∧ (['a', 'a', 'a', 'a', 'a', 'a', 'a'] : List Char) ≠ ['a', 'a', 'a', 'a', 'a', 'a']
    ∧ read_wavetables_from_files
        [(['a', 'a', 'a', 'a', 'a', 'a'], List.replicate 8192 0),
         (['a', 'a', 'a', 'a', 'a', 'a', 'a'], List.replicate 8192 1)] false =
      .error (.ssp (.wrongCount 128 1)) := by
  refine ⟨by decide, by decide, ?_⟩
  have h0 : (List.replicate 8192 (0 : Nat)).length = WT_DATA_LENGTH := by
    rw [List.length_replicate]; rfl
  have h1 : (List.replicate 8192 (1 : Nat)).length = WT_DATA_LENGTH := by
    rw [List.length_replicate]; rfl
  simp only [read_wavetables_from_files, buildDict, h0, h1, ne_eq, not_true_eq_false,
    if_false, ite_false, ite_true]
  decide

/-- Claim C3 (amended): read_wavetables_from_files performs no duplicate
check on sanitized names.  Whenever the raw pre-sanitize stems are
pairwise distinct — in particular whenever the sanitized names collide
without the raw stems colliding — the function never fails with
DuplicateNameError; colliding sanitized keys silently merge in the dict,
so such a load either trips the wrong-count check or succeeds with fewer
entries than files. -/
theorem no_sanitized_duplicate_check :
    ∀ (files : List (List Char × List Nat)),
      ((files.filter (fun f => f.1 ≠ dsStore)).map (fun f => stemOf f.1)).Pairwise (· ≠ ·) →
      ∀ n : List Char,
        read_wavetables_from_files files false ≠ .error (.ssp (.duplicateName n)) := by
  intro files hpw n
  unfold read_wavetables_from_files
  rcases hb : buildDict [] files with e | d
  · rw [except_bind_error]
    have hne := buildDict_no_duplicate files [] hpw (by intro p hp; simp at hp) n
    rw [hb] at hne
    intro hcontra
    injection hcontra with h
    exact hne (by rw [h])
  · rw [except_bind_ok]
    simp only [Bool.false_eq_true, if_false, ite_false]
    rcases hf : sanitizeFold [] (sortItems d) with e | w
    · rw [except_bind_error]
      have hne := sanitizeFold_no_duplicate (sortItems d) [] n
      rw [hf] at hne
      intro hcontra
      injection hcontra with h
      exact hne (by rw [h])
    · rw [except_bind_ok]
      by_cases hc : w.length ≠ NUM_WT
      · rw [if_pos hc]
        intro hcontra
        simp at hcontra
      · rw [if_neg hc]
        rw [except_pure]
        intro hcontra
        simp at hcontra

/-- Witness for the amended C3: the two colliding-stem files of the
counterexample satisfy the raw-distinctness hypothesis, so the theorem
applies to them. -/
theorem no_sanitized_duplicate_check_witness :
    read_wavetables_from_files
        [(['a', 'a', 'a', 'a', 'a', 'a'], List.replicate 8192 0),
         (['a', 'a', 'a', 'a', 'a', 'a', 'a'], List.replicate 8192 1)] false ≠
      .error (.ssp (.duplicateName ['a', 'a', 'a', 'a', 'a', 'a'])) :=
  no_sanitized_duplicate_check _ (by decide) ['a', 'a', 'a', 'a', 'a', 'a']

/-- Length of a full-region read. -/
theorem slice_length (f : List Nat) (off n : Nat) (h : off + n ≤ f.length) :
    (slice f off n).length = n := by
  unfold slice
  rw [List.length_take, List.length_drop]
  omega

/-- A chunk split always yields `count` chunks. -/
theorem chunks_length (l : List Nat) (size count : Nat) :
    (chunks l size count).length = count := by
  unfold chunks
  rw [List.length_map, List.length_range]

/-- Every chunk of an exactly-covered list has the chunk size. -/
theorem chunks_mem_length (l : List Nat) (size count : Nat)
    (h : l.length = size * count) :
    ∀ c ∈ chunks l size count, c.length = size := by
  intro c hc
  unfold chunks at hc
  rw [List.mem_map] at hc
  obtain ⟨i, hi, rfl⟩ := hc
  rw [List.mem_range] at hi
  rw [List.length_take, List.length_drop]
  have hmul : (i + 1) * size ≤ count * size := Nat.mul_le_mul_right _ hi
  rw [Nat.succ_mul, Nat.mul_comm count size] at hmul
  omega

/-- Claim C5: for every source whose bytes at the data-region offset yield
a full 1048576-byte block, if the block contains a maximal run of
identical bytes strictly longer than RUN_LIMIT = 2048 then read_wt_data
fails with the suspicious-data error whose attached run-length value is
the length of such a maximal run (the first one), returning no blocks;
conversely, when no run exceeds 2048, the block is split and returned as
128 blocks of 8192 bytes each. -/
theorem read_wt_data_run_check :
    ∀ f : List Nat, WT_DATA_OFFSET + WT_DATA_LENGTH * NUM_WT ≤ f.length →
      ((∃ p ∈ runs (slice f WT_DATA_OFFSET (WT_DATA_LENGTH * NUM_WT)), RUN_LIMIT < p.2) →
        ∃ b k, read_wt_data f = .error (.ssp (.suspiciousData k b))
          ∧ (b, k) ∈ runs (slice f WT_DATA_OFFSET (WT_DATA_LENGTH * NUM_WT))
          ∧ RUN_LIMIT < k)
      ∧ ((∀ p ∈ runs (slice f WT_DATA_OFFSET (WT_DATA_LENGTH * NUM_WT)), p.2 ≤ RUN_LIMIT) →
        read_wt_data f =
            .ok (chunks (slice f WT_DATA_OFFSET (WT_DATA_LENGTH * NUM_WT)) WT_DATA_LENGTH NUM_WT)
          ∧ (chunks (slice f WT_DATA_OFFSET (WT_DATA_LENGTH * NUM_WT))
              WT_DATA_LENGTH NUM_WT).length = NUM_WT
          ∧ ∀ c ∈ chunks (slice f WT_DATA_OFFSET (WT_DATA_LENGTH * NUM_WT))
              WT_DATA_LENGTH NUM_WT, c.length = WT_DATA_LENGTH) := by
  intro f hf
  have hlen : (slice f WT_DATA_OFFSET (WT_DATA_LENGTH * NUM_WT)).length =
      WT_DATA_LENGTH * NUM_WT := slice_length f _ _ hf
  constructor
  · intro ⟨p, hp, hbig⟩
    rcases hfind : (runs (slice f WT_DATA_OFFSET (WT_DATA_LENGTH * NUM_WT))).find?
        (fun p => decide (RUN_LIMIT < p.2)) with _ | q
    · rw [List.find?_eq_none] at hfind
      have := hfind p hp
      simp [hbig] at this
    · refine ⟨q.1, q.2, ?_, ?_, ?_⟩
      · unfold read_wt_data
        simp only [hlen, ne_eq, not_true_eq_false, if_false, ite_false, hfind]
      · have := List.mem_of_find?_eq_some hfind
        simpa using this
      · have := List.find?_some hfind
        simpa using this
  · intro hsmall
    have hfind : (runs (slice f WT_DATA_OFFSET (WT_DATA_LENGTH * NUM_WT))).find?
        (fun p => decide (RUN_LIMIT < p.2)) = none := by
      rw [List.find?_eq_none]
      intro p hp
      have := hsmall p hp
      simp
      omega
    refine ⟨?_, chunks_length _ _ _, chunks_mem_length _ _ _ hlen⟩
    unfold read_wt_data
    simp only [hlen, ne_eq, not_true_eq_false, if_false, ite_false, hfind]

/-- Witness for C5: a full-size all-zero image satisfies the length
hypothesis (its data region is one giant run, so the first conjunct's
premise is also satisfiable, though the witness only needs the
hypothesis of the theorem itself). -/
theorem read_wt_data_run_check_witness :
    ((∃ p ∈ runs (slice (List.replicate 0x200000 0) WT_DATA_OFFSET (WT_DATA_LENGTH * NUM_WT)),
        RUN_LIMIT < p.2) →
      ∃ b k, read_wt_data (List.replicate 0x200000 0) = .error (.ssp (.suspiciousData k b))
        ∧ (b, k) ∈ runs (slice (List.replicate 0x200000 0) WT_DATA_OFFSET (WT_DATA_LENGTH * NUM_WT))
        ∧ RUN_LIMIT < k)
    ∧ ((∀ p ∈ runs (slice (List.replicate 0x200000 0) WT_DATA_OFFSET (WT_DATA_LENGTH * NUM_WT)),
        p.2 ≤ RUN_LIMIT) →
      read_wt_data (List.replicate 0x200000 0) =
          .ok (chunks (slice (List.replicate 0x200000 0) WT_DATA_OFFSET (WT_DATA_LENGTH * NUM_WT))
            WT_DATA_LENGTH NUM_WT)
        ∧ (chunks (slice (List.replicate 0x200000 0) WT_DATA_OFFSET (WT_DATA_LENGTH * NUM_WT))
            WT_DATA_LENGTH NUM_WT).length = NUM_WT
        ∧ ∀ c ∈ chunks (slice (List.replicate 0x200000 0) WT_DATA_OFFSET
            (WT_DATA_LENGTH * NUM_WT)) WT_DATA_LENGTH NUM_WT, c.length = WT_DATA_LENGTH) :=
  read_wt_data_run_check (List.replicate 0x200000 0)
    (by rw [List.length_replicate]; decide)

/-- Unfolding a chunk split one chunk at a time. -/
theorem chunks_succ (l : List Nat) (size n : Nat) :
    chunks l size (n + 1) = l.take size :: chunks (l.drop size) size n := by
  unfold chunks
  rw [List.range_succ_eq_map, List.map_cons]
  simp only [Nat.zero_mul, List.drop_zero, List.map_map]
  congr 1
  apply List.map_congr_left
  intro i _
  simp only [Function.comp_apply]
  rw [List.drop_drop]
  congr 2
  rw [Nat.succ_mul]
  omega

/-- Prepending a name to a nonempty name list prepends its record bytes. -/
theorem nameData_cons (n : List Nat) (ns : List (List Nat)) (h : ns ≠ []) :
    nameData (n :: ns) = (WT_NAME_PFX ++ n) ++ nameData ns := by
  rcases ns with _ | ⟨m, ms⟩
  · exact absurd rfl h
  · show WT_NAME_PFX ++ (n ++ WT_NAME_PFX ++ bytesJoinSep WT_NAME_PFX (m :: ms)) =
      (WT_NAME_PFX ++ n) ++ (WT_NAME_PFX ++ bytesJoinSep WT_NAME_PFX (m :: ms))
    simp only [List.append_assoc]

/-- Re-encoding the stripped names of a record block whose records all
carry the two-space lead-in reproduces the block exactly. -/
theorem name_block_reconstruct :
    ∀ (m : Nat) (blk : List Nat), 0 < m → blk.length = WT_NAME_LENGTH * m →
      (∀ r ∈ chunks blk WT_NAME_LENGTH m, startsWithPfx r) →
      nameData ((chunks blk WT_NAME_LENGTH m).map (fun n => n.drop WT_NAME_PFX.length)) = blk := by
  intro m
  induction m with
  | zero => omega
  | succ m ih =>
    intro blk _ hlen hpfx
    have h2 : WT_NAME_PFX.length = 2 := rfl
    rcases Nat.eq_zero_or_pos m with hm | hm
    · subst hm
      rw [chunks_succ] at hpfx ⊢
      unfold chunks
      simp only [List.range_zero, List.map_nil, List.map_cons]
      have hblk : blk.take WT_NAME_LENGTH = blk := by
        apply List.take_of_length_le
        omega
      have hpfx0 : startsWithPfx blk := by
        have := hpfx blk
        rw [hblk] at this
        exact this (List.mem_cons_self _ _)
      unfold startsWithPfx at hpfx0
      simp only [decide_eq_true_eq, h2] at hpfx0
      show WT_NAME_PFX ++ (blk.take WT_NAME_LENGTH).drop WT_NAME_PFX.length = blk
      rw [hblk, h2, ← hpfx0, List.take_append_drop]
    · rw [chunks_succ] at hpfx ⊢
      rw [List.map_cons]
      have hne : (chunks (blk.drop WT_NAME_LENGTH) WT_NAME_LENGTH m).map
          (fun n => n.drop WT_NAME_PFX.length) ≠ [] := by
        intro hcontra
        have := congrArg List.length hcontra
        rw [List.length_map, chunks_length] at this
        simp at this
        omega
      rw [nameData_cons _ _ hne]
      have hpfx0 : startsWithPfx (blk.take WT_NAME_LENGTH) :=
        hpfx _ (List.mem_cons_self _ _)
      unfold startsWithPfx at hpfx0
      simp only [decide_eq_true_eq, h2] at hpfx0
      have hrec : nameData ((chunks (blk.drop WT_NAME_LENGTH) WT_NAME_LENGTH m).map
          (fun n => n.drop WT_NAME_PFX.length)) = blk.drop WT_NAME_LENGTH := by
        apply ih _ hm
        · rw [List.length_drop, hlen, Nat.mul_succ]
          omega
        · intro r hr
          exact hpfx r (List.mem_cons_of_mem _ hr)
      rw [hrec, h2, ← hpfx0, List.take_append_drop, List.take_append_drop]

/-- Claim C2: for every image of an accepted size whose 128 eight-byte
name records each start with the two-byte b'  ' lead-in, re-encoding the
6-byte names returned by read_wt_names as lead-in-plus-name concatenated
in order (the byte string patch writes at the name-region offset)
reproduces the original 1024 bytes of the name region exactly. -/
theorem read_wt_names_reencode_roundtrip :
    ∀ img : List Nat, (img.length = IMAGE_SIZE_SHORT ∨ img.length = IMAGE_SIZE_LONG) →
      (∀ r ∈ chunks (slice img WT_NAME_OFFSET (WT_NAME_LENGTH * NUM_WT))
          WT_NAME_LENGTH NUM_WT, startsWithPfx r) →
      ∃ ns, read_wt_names img = .ok ns
        ∧ nameData ns = slice img WT_NAME_OFFSET (WT_NAME_LENGTH * NUM_WT) := by
  intro img hsize hpfx
  have hbound : WT_NAME_OFFSET + WT_NAME_LENGTH * NUM_WT ≤ img.length := by
    rcases hsize with h | h <;> rw [h] <;> decide
  have hlen : (slice img WT_NAME_OFFSET (WT_NAME_LENGTH * NUM_WT)).length =
      WT_NAME_LENGTH * NUM_WT := slice_length img _ _ hbound
  have hfind : (chunks (slice img WT_NAME_OFFSET (WT_NAME_LENGTH * NUM_WT))
      WT_NAME_LENGTH NUM_WT).find? (fun n => ! startsWithPfx n) = none := by
    rw [List.find?_eq_none]
    intro r hr
    simp [hpfx r hr]
  refine ⟨(chunks (slice img WT_NAME_OFFSET (WT_NAME_LENGTH * NUM_WT))
      WT_NAME_LENGTH NUM_WT).map (fun n => n.drop WT_NAME_PFX.length), ?_, ?_⟩
  · unfold read_wt_names
    simp only [hlen, ne_eq, not_true_eq_false, if_false, ite_false, hfind]
  · exact name_block_reconstruct NUM_WT _ (by decide) hlen hpfx

/-- Name region of the synthetic image. -/
theorem demoImage_slice :
    slice demoImage WT_NAME_OFFSET (WT_NAME_LENGTH * NUM_WT) = demoNameBlock := by
  unfold slice demoImage
  rw [List.append_assoc, List.drop_left' (by rw [List.length_replicate]),
    List.take_left' (by decide)]

/-- Byte length of the synthetic image. -/
theorem demoImage_length : demoImage.length = IMAGE_SIZE_SHORT := by
  unfold demoImage
  rw [List.length_append, List.length_append, List.length_replicate, List.length_replicate]
  have h : demoNameBlock.length = 1024 := by decide
  rw [h]
  decide

/-- Witness for C2: the roundtrip theorem applied to the synthetic image,
whose records all carry the lead-in. -/
theorem read_wt_names_reencode_roundtrip_witness :
    ∃ ns, read_wt_names demoImage = .ok ns
      ∧ nameData ns = slice demoImage WT_NAME_OFFSET (WT_NAME_LENGTH * NUM_WT) :=
  read_wt_names_reencode_roundtrip demoImage (Or.inl demoImage_length)
    (by rw [demoImage_slice]; decide)

/-- Length is preserved by an in-bounds in-place write. -/
theorem writeAt_length (img : List Nat) (off : Nat) (b : List Nat)
    (h : off + b.length ≤ img.length) :
    (writeAt img off b).length = img.length := by
  unfold writeAt
  rw [List.length_append, List.length_append, List.length_take, List.length_drop]
  omega

/-- Reading back exactly the spliced-in bytes. -/
theorem slice_writeAt_self (img : List Nat) (off : Nat) (b : List Nat)
    (h : off + b.length ≤ img.length) :
    slice (writeAt img off b) off b.length = b := by
  unfold slice writeAt
  rw [List.append_assoc, List.drop_left' (by rw [List.length_take]; omega),
    List.take_left' rfl]

/-- A read strictly before an in-bounds write is unaffected by it. -/
theorem slice_writeAt_before (img : List Nat) (off1 n1 off2 : Nat) (b : List Nat)
    (h12 : off1 + n1 ≤ off2) (h2 : off2 ≤ img.length) :
    slice (writeAt img off2 b) off1 n1 = slice img off1 n1 := by
  unfold slice writeAt
  rw [List.append_assoc, List.drop_append_of_le_length (by rw [List.length_take]; omega),
    List.take_append_of_le_length (by rw [List.length_drop, List.length_take]; omega)]
  rw [List.drop_take, List.take_take]
  congr 1
  omega

/-- Length of a concatenation of equal-sized blocks. -/
theorem flatten_length_const (size : Nat) :
    ∀ vs : List (List Nat), (∀ v ∈ vs, v.length = size) →
      vs.flatten.length = size * vs.length := by
  intro vs
  induction vs with
  | nil => intro _; simp
  | cons v rest ih =>
    intro h
    rw [List.flatten_cons, List.length_append, ih (fun x hx => h x (List.mem_cons_of_mem _ hx)),
      h v (List.mem_cons_self _ _), List.length_cons, Nat.mul_succ]
    omega

/-- Chunking the concatenation of equal-sized blocks recovers the blocks. -/
theorem chunks_flatten (size : Nat) :
    ∀ pieces : List (List Nat), (∀ p ∈ pieces, p.length = size) →
      chunks pieces.flatten size pieces.length = pieces := by
  intro pieces
  induction pieces with
  | nil => intro _; unfold chunks; simp
  | cons p rest ih =>
    intro h
    have hp : p.length = size := h p (List.mem_cons_self _ _)
    rw [List.length_cons, chunks_succ, List.flatten_cons]
    rw [List.take_left' hp, List.drop_left' hp]
    rw [ih (fun x hx => h x (List.mem_cons_of_mem _ hx))]

/-- The name region bytes are the concatenation of the prefixed records
(for a nonempty name list). -/
theorem nameData_eq_flatten :
    ∀ ns : List (List Nat), ns ≠ [] →
      nameData ns = (ns.map (fun n => WT_NAME_PFX ++ n)).flatten := by
  intro ns
  induction ns with
  | nil => intro h; exact absurd rfl h
  | cons n rest ih =>
    intro _
    rcases rest with _ | ⟨m, ms⟩
    · show WT_NAME_PFX ++ n = (WT_NAME_PFX ++ n) ++ [].flatten
      simp
    · rw [nameData_cons _ _ (by simp), List.map_cons, List.flatten_cons,
        ih (by simp)]

/-- The `.DS_Store` artifact name never sanitizes successfully (its stem
keeps the underscore, which is not an allowed character). -/
theorem dsStore_sanitize_fails : (sanitize_name (stemOf dsStore)).isOk = false := by
  decide

/-- With pairwise-distinct stems (none of them `.DS_Store`) and
well-sized data, the dictionary-building loop succeeds and returns the
stem-keyed pairs in listing order after the accumulator. -/
theorem buildDict_ok :
    ∀ (files acc : List (List Char × List Nat)),
      (∀ f ∈ files, f.1 ≠ dsStore) →
      (∀ f ∈ files, f.2.length = WT_DATA_LENGTH) →
      (acc.map (fun p => p.1) ++ files.map (fun f => stemOf f.1)).Pairwise (· ≠ ·) →
      buildDict acc files = .ok (acc ++ files.map (fun f => (stemOf f.1, f.2))) := by
  intro files
  induction files with
  | nil =>
    intro acc _ _ _
    simp [buildDict]
  | cons fd rest ih =>
    intro acc hds hsz hpw
    obtain ⟨fn, d⟩ := fd
    unfold buildDict
    rw [if_neg (hds (fn, d) (List.mem_cons_self _ _))]
    have hany : acc.any (fun p => p.1 = stemOf fn) = false := by
      rw [List.any_eq_false]
      intro p hp
      simp only [decide_eq_true_eq]
      have hmem1 : p.1 ∈ acc.map (fun p => p.1) := List.mem_map_of_mem _ hp
      have hmem2 : stemOf fn ∈ ((fn, d) :: rest).map (fun f => stemOf f.1) :=
        List.mem_map_of_mem _ (List.mem_cons_self _ _)
      have := (List.pairwise_append.mp hpw).2.2 p.1 hmem1 (stemOf fn) hmem2
      exact this
    simp only [hany, Bool.false_eq_true, if_false, ite_false]
    rw [if_neg (by simp [hsz (fn, d) (List.mem_cons_self _ _)])]
    rw [List.map_cons]
    have hpw2 : ((acc ++ [(stemOf fn, d)]).map (fun p => p.1) ++
        rest.map (fun f => stemOf f.1)).Pairwise (· ≠ ·) := by
      rw [List.map_append]
      rw [List.append_assoc]
      have : ([(stemOf fn, d)].map (fun p => p.1) ++ rest.map (fun f => stemOf f.1)) =
          ((fn, d) :: rest).map (fun f => stemOf f.1) := by
        simp
      rw [this]
      exact hpw
    have := ih (acc ++ [(stemOf fn, d)])
      (fun f hf => hds f (List.mem_cons_of_mem _ hf))
      (fun f hf => hsz f (List.mem_cons_of_mem _ hf)) hpw2
    rw [this, List.append_assoc]
    rfl

/-- Key of a successful sanitization. -/
theorem sanKey_eq (s : List Char) (k : List Nat) (h : sanitize_name s = .ok k) :
    sanKey s = k := by
  unfold sanKey
  rw [h]
  rfl

/-- On items whose stems all sanitize, with pairwise-distinct sanitized
keys, the re-keying dict comprehension is a plain map. -/
theorem sanitizeFold_ok :
    ∀ (items : List (List Char × List Nat)) (acc : List (List Nat × List Nat)),
      (∀ p ∈ items, (sanitize_name p.1).isOk = true) →
      (acc.map (fun q => q.1) ++ items.map (fun p => sanKey p.1)).Pairwise (· ≠ ·) →
      sanitizeFold acc items = .ok (acc ++ items.map (fun p => (sanKey p.1, p.2))) := by
  intro items
  induction items with
  | nil =>
    intro acc _ _
    simp [sanitizeFold]
  | cons it rest ih =>
    intro acc hok hpw
    obtain ⟨nm, d⟩ := it
    unfold sanitizeFold
    have hok0 : (sanitize_name nm).isOk = true := hok (nm, d) (List.mem_cons_self _ _)
    rcases hs : sanitize_name nm with e | k
    · rw [hs] at hok0
      exact absurd hok0 (by rw [show (Except.error e :
          Except SSPatcherError (List Nat)).isOk = false from rfl]; decide)
    · have hkey : sanKey nm = k := sanKey_eq nm k hs
      have hins : dictInsert acc k d = acc ++ [(k, d)] := by
        unfold dictInsert
        have hany : acc.any (fun p => p.1 = k) = false := by
          rw [List.any_eq_false]
          intro p hp
          simp only [decide_eq_true_eq]
          have hmem1 : p.1 ∈ acc.map (fun q => q.1) := List.mem_map_of_mem _ hp
          have hmem2 : sanKey nm ∈ ((nm, d) :: rest).map (fun p => sanKey p.1) :=
            List.mem_map_of_mem _ (List.mem_cons_self _ _)
          have hne := (List.pairwise_append.mp hpw).2.2 p.1 hmem1 (sanKey nm) hmem2
          rw [hkey] at hne
          exact hne
        simp only [hany, Bool.false_eq_true, if_false, ite_false]
      show sanitizeFold (dictInsert acc k d) rest =
        .ok (acc ++ ((nm, d) :: rest).map (fun p => (sanKey p.1, p.2)))
      rw [hins]
      have hpw2 : ((acc ++ [(k, d)]).map (fun q => q.1) ++
          rest.map (fun p => sanKey p.1)).Pairwise (· ≠ ·) := by
        rw [List.map_append, List.append_assoc]
        have : ([(k, d)].map (fun q => q.1) ++ rest.map (fun p => sanKey p.1)) =
            ((nm, d) :: rest).map (fun p => sanKey p.1) := by
          simp [hkey]
        rw [this]
        exact hpw
      have := ih (acc ++ [(k, d)]) (fun p hp => hok p (List.mem_cons_of_mem _ hp)) hpw2
      rw [this, List.append_assoc]
      rw [List.map_cons, hkey]
      rfl

/-- A directory listing of exactly 128 well-sized files whose stems all
sanitize to pairwise-distinct names loads successfully, producing the
sorted sanitized mapping. -/
theorem read_wavetables_ok :
    ∀ files : List (List Char × List Nat),
      files.length = NUM_WT →
      (∀ f ∈ files, f.2.length = WT_DATA_LENGTH) →
      (∀ f ∈ files, (sanitize_name (stemOf f.1)).isOk = true) →
      (files.map (fun f => sanKey (stemOf f.1))).Pairwise (· ≠ ·) →
      read_wavetables_from_files files false = .ok (loadResult files) := by
  intro files hcount hsz hok hpw
  have hds : ∀ f ∈ files, f.1 ≠ dsStore := by
    intro f hf hcontra
    have h1 := hok f hf
    rw [hcontra] at h1
    rw [dsStore_sanitize_fails] at h1
    exact absurd h1 (by decide)
  have hstems : (files.map (fun f => stemOf f.1)).Pairwise (· ≠ ·) := by
    rw [List.pairwise_map]
    rw [List.pairwise_map] at hpw
    refine hpw.imp ?_
    intro a b hne hcontra
    rw [hcontra] at hne
    exact hne rfl
  have hb : buildDict [] files = .ok (files.map (fun f => (stemOf f.1, f.2))) := by
    have := buildDict_ok files [] hds hsz (by simpa using hstems)
    simpa using this
  unfold read_wavetables_from_files
  rw [hb, except_bind_ok]
  simp only [Bool.false_eq_true, if_false, ite_false]
  have hperm : sortItems (files.map (fun f => (stemOf f.1, f.2))) |>.Perm
      (files.map (fun f => (stemOf f.1, f.2))) := List.perm_insertionSort _ _
  have hok2 : ∀ p ∈ sortItems (files.map (fun f => (stemOf f.1, f.2))),
      (sanitize_name p.1).isOk = true := by
    intro p hp
    have hmem := hperm.subset hp
    rw [List.mem_map] at hmem
    obtain ⟨f, hf, rfl⟩ := hmem
    exact hok f hf
  have hpw2 : ((sortItems (files.map (fun f => (stemOf f.1, f.2)))).map
      (fun p => sanKey p.1)).Pairwise (· ≠ ·) := by
    have hmperm : ((sortItems (files.map (fun f => (stemOf f.1, f.2)))).map
        (fun p => sanKey p.1)).Perm
        ((files.map (fun f => (stemOf f.1, f.2))).map (fun p => sanKey p.1)) :=
      hperm.map _
    rw [hmperm.pairwise_iff (fun hne => Ne.symm hne)]
    rw [List.map_map]
    exact hpw
  have hfold := sanitizeFold_ok (sortItems (files.map (fun f => (stemOf f.1, f.2)))) []
    hok2 (by simpa using hpw2)
  rw [hfold, except_bind_ok]
  have hlen : ((sortItems (files.map (fun f => (stemOf f.1, f.2)))).map
      (fun p => (sanKey p.1, p.2))).length = NUM_WT := by
    rw [List.length_map]
    rw [hperm.length_eq, List.length_map]
    exact hcount
  simp only [List.nil_append]
  rw [if_neg (by rw [hlen]; simp), except_pure]
  rfl

/-- Every entry of a load result pairs the sanitized stem of some listed
file with that file's data. -/
theorem loadResult_mem (files : List (List Char × List Nat)) :
    ∀ p ∈ loadResult files, ∃ f ∈ files, p = (sanKey (stemOf f.1), f.2) := by
  intro p hp
  unfold loadResult at hp
  rw [List.mem_map] at hp
  obtain ⟨q, hq, rfl⟩ := hp
  have hsub := (List.perm_insertionSort
    (fun a b => stemLe a b = true) (files.map (fun f => (stemOf f.1, f.2)))).subset
  have hq2 : q ∈ files.map (fun f => (stemOf f.1, f.2)) := hsub hq
  rw [List.mem_map] at hq2
  obtain ⟨f, hf, rfl⟩ := hq2
  exact ⟨f, hf, rfl⟩

/-- A load result has one entry per listed file. -/
theorem loadResult_length (files : List (List Char × List Nat)) :
    (loadResult files).length = files.length := by
  unfold loadResult sortItems
  rw [List.length_map,
    (List.perm_insertionSort (fun a b => stemLe a b = true) _).length_eq, List.length_map]

/-- Reading the names back from an image whose name region holds the
encoding of 128 six-byte names. -/
theorem read_wt_names_of_block (img : List Nat) (ns : List (List Nat))
    (hcount : ns.length = NUM_WT)
    (hlen6 : ∀ n ∈ ns, n.length = WT_USER_NAME_LENGTH)
    (hslice : slice img WT_NAME_OFFSET (WT_NAME_LENGTH * NUM_WT) = nameData ns) :
    read_wt_names img = .ok ns := by
  have hne : ns ≠ [] := by
    intro hc
    rw [hc] at hcount
    exact absurd hcount (by decide)
  have hflat : nameData ns = (ns.map (fun n => WT_NAME_PFX ++ n)).flatten :=
    nameData_eq_flatten ns hne
  have hpieces : ∀ p ∈ ns.map (fun n => WT_NAME_PFX ++ n), p.length = WT_NAME_LENGTH := by
    intro p hp
    rw [List.mem_map] at hp
    obtain ⟨n, hn, rfl⟩ := hp
    rw [List.length_append, hlen6 n hn]
    rfl
  have hchunks : chunks (nameData ns) WT_NAME_LENGTH NUM_WT =
      ns.map (fun n => WT_NAME_PFX ++ n) := by
    rw [hflat]
    have := chunks_flatten WT_NAME_LENGTH (ns.map (fun n => WT_NAME_PFX ++ n)) hpieces
    rw [List.length_map, hcount] at this
    exact this
  have hndlen : (nameData ns).length = WT_NAME_LENGTH * NUM_WT := by
    rw [hflat, flatten_length_const WT_NAME_LENGTH _ hpieces, List.length_map, hcount]
  have hfind : (chunks (nameData ns) WT_NAME_LENGTH NUM_WT).find?
      (fun n => ! startsWithPfx n) = none := by
    rw [List.find?_eq_none]
    intro r hr
    rw [hchunks, List.mem_map] at hr
    obtain ⟨n, _, rfl⟩ := hr
    unfold startsWithPfx
    simp [List.take_left]
  unfold read_wt_names
  simp only [hslice, hndlen, ne_eq, not_true_eq_false, if_false, ite_false, hfind]
  rw [hchunks, List.map_map]
  have hcomp : ((fun n => List.drop WT_NAME_PFX.length n) ∘ fun n => WT_NAME_PFX ++ n) =
      (id : List Nat → List Nat) := by
    funext n
    simp [List.drop_left]
  rw [hcomp, List.map_id]

/-- Reading the data back from an image whose data region holds the
concatenation of 128 well-sized blocks with no long run. -/
theorem read_wt_data_of_block (img : List Nat) (vs : List (List Nat))
    (hcount : vs.length = NUM_WT)
    (hlen : ∀ v ∈ vs, v.length = WT_DATA_LENGTH)
    (hslice : slice img WT_DATA_OFFSET (WT_DATA_LENGTH * NUM_WT) = vs.flatten)
    (hruns : ∀ p ∈ runs vs.flatten, p.2 ≤ RUN_LIMIT) :
    read_wt_data img = .ok vs := by
  have hlen2 : vs.flatten.length = WT_DATA_LENGTH * NUM_WT := by
    rw [flatten_length_const WT_DATA_LENGTH vs hlen, hcount]
  have hfind : (runs vs.flatten).find? (fun p => decide (RUN_LIMIT < p.2)) = none := by
    rw [List.find?_eq_none]
    intro p hp
    have := hruns p hp
    simp
    omega
  have hchunks : chunks vs.flatten WT_DATA_LENGTH NUM_WT = vs := by
    have := chunks_flatten WT_DATA_LENGTH vs hlen
    rw [hcount] at this
    exact this
  unfold read_wt_data
  simp only [hslice, hlen2, ne_eq, not_true_eq_false, if_false, ite_false, hfind, hchunks]

/-- Claim C1: for every directory listing of exactly 128 files, each
exactly 8192 bytes, whose names sanitize to 128 distinct valid
six-character names, and whose concatenated data (in load order)
contains no run of more than 2048 identical bytes: loading the listing
with read_wavetables_from_files succeeds; patching the result into a
copy of a valid-size image succeeds; and reading that copy back with
read_wt_names and read_wt_data yields exactly the sanitized names and
exactly the data blocks that were supplied, in the same order (the load
result is, as a multiset, exactly the supplied (sanitized name, data)
pairs). -/
theorem load_patch_read_roundtrip :
    ∀ (files : List (List Char × List Nat)) (img : List Nat),
      files.length = NUM_WT →
      (∀ f ∈ files, f.2.length = WT_DATA_LENGTH) →
      (∀ f ∈ files, (sanitize_name (stemOf f.1)).isOk = true) →
      (files.map (fun f => sanKey (stemOf f.1))).Pairwise (· ≠ ·) →
      (img.length = IMAGE_SIZE_SHORT ∨ img.length = IMAGE_SIZE_LONG) →
      (∀ p ∈ runs (((loadResult files).map (fun q => q.2)).flatten), p.2 ≤ RUN_LIMIT) →
      read_wavetables_from_files files false = .ok (loadResult files)
      ∧ patch files img = .ok (patchedImage files img)
      ∧ read_wt_names (patchedImage files img) = .ok ((loadResult files).map (fun q => q.1))
      ∧ read_wt_data (patchedImage files img) = .ok ((loadResult files).map (fun q => q.2))
      ∧ ((loadResult files).map
          (fun q => ((Except.ok q.1 : Except SSPatcherError (List Nat)), q.2))).Perm
          (files.map (fun f => (sanitize_name (stemOf f.1), f.2))) := by
  intro files img hcount hsz hok hpw hsize hruns
  have hload := read_wavetables_ok files hcount hsz hok hpw
  have hkey6 : ∀ k ∈ (loadResult files).map (fun q => q.1), k.length = WT_USER_NAME_LENGTH := by
    intro k hk
    rw [List.mem_map] at hk
    obtain ⟨p, hp, rfl⟩ := hk
    obtain ⟨f, hf, rfl⟩ := loadResult_mem files p hp
    have := hok f hf
    rcases hsan : sanitize_name (stemOf f.1) with e | r
    · rw [hsan] at this
      exact absurd this (by rw [show (Except.error e :
          Except SSPatcherError (List Nat)).isOk = false from rfl]; decide)
    · rw [sanKey_eq _ _ hsan]
      exact sanitize_name_ok_length _ _ hsan
  have hval8192 : ∀ v ∈ (loadResult files).map (fun q => q.2), v.length = WT_DATA_LENGTH := by
    intro v hv
    rw [List.mem_map] at hv
    obtain ⟨p, hp, rfl⟩ := hv
    obtain ⟨f, hf, rfl⟩ := loadResult_mem files p hp
    exact hsz f hf
  have hkeycount : ((loadResult files).map (fun q => q.1)).length = NUM_WT := by
    rw [List.length_map, loadResult_length, hcount]
  have hvalcount : ((loadResult files).map (fun q => q.2)).length = NUM_WT := by
    rw [List.length_map, loadResult_length, hcount]
  have hndlen : (nameData ((loadResult files).map (fun q => q.1))).length =
      WT_NAME_LENGTH * NUM_WT := by
    have hne : (loadResult files).map (fun q => q.1) ≠ [] := by
      intro hc
      rw [hc] at hkeycount
      exact absurd hkeycount (by decide)
    rw [nameData_eq_flatten _ hne]
    rw [flatten_length_const WT_NAME_LENGTH]
    · rw [List.length_map, hkeycount]
    · intro p hp
      rw [List.mem_map] at hp
      obtain ⟨n, hn, rfl⟩ := hp
      rw [List.length_append, hkey6 n hn]
      rfl
  have hfllen : (((loadResult files).map (fun q => q.2)).flatten).length =
      WT_DATA_LENGTH * NUM_WT := by
    rw [flatten_length_const WT_DATA_LENGTH _ hval8192, hvalcount]
  have hb1 : WT_NAME_OFFSET + (nameData ((loadResult files).map (fun q => q.1))).length ≤
      img.length := by
    rw [hndlen]
    rcases hsize with h | h <;> rw [h] <;> decide
  have himg1len : (writeAt img WT_NAME_OFFSET
      (nameData ((loadResult files).map (fun q => q.1)))).length = img.length :=
    writeAt_length _ _ _ hb1
  have hb2 : WT_DATA_OFFSET + (((loadResult files).map (fun q => q.2)).flatten).length ≤
      (writeAt img WT_NAME_OFFSET
        (nameData ((loadResult files).map (fun q => q.1)))).length := by
    rw [himg1len, hfllen]
    rcases hsize with h | h <;> rw [h] <;> decide
  have hslice_names : slice (patchedImage files img) WT_NAME_OFFSET
      (WT_NAME_LENGTH * NUM_WT) = nameData ((loadResult files).map (fun q => q.1)) := by
    unfold patchedImage
    rw [slice_writeAt_before _ _ _ _ _ (by decide)
      (by rw [himg1len]; rcases hsize with h | h <;> rw [h] <;> decide)]
    have := slice_writeAt_self img WT_NAME_OFFSET
      (nameData ((loadResult files).map (fun q => q.1))) hb1
    rw [hndlen] at this
    exact this
  have hslice_data : slice (patchedImage files img) WT_DATA_OFFSET
      (WT_DATA_LENGTH * NUM_WT) =
      ((loadResult files).map (fun q => q.2)).flatten := by
    unfold patchedImage
    have := slice_writeAt_self _ WT_DATA_OFFSET
      (((loadResult files).map (fun q => q.2)).flatten) hb2
    rw [hfllen] at this
    exact this
  refine ⟨hload, ?_, ?_, ?_, ?_⟩
  · unfold patch
    rw [show check_image_size img.length = .ok () from by
      unfold check_image_size
      rw [if_neg]
      tauto]
    rw [except_bind_ok, hload, except_bind_ok, except_pure]
    rfl
  · exact read_wt_names_of_block _ _ hkeycount hkey6 hslice_names
  · exact read_wt_data_of_block _ _ hvalcount hval8192 hslice_data hruns
  · unfold loadResult
    rw [List.map_map]
    have hperm := (List.perm_insertionSort (fun a b => stemLe a b = true)
      (files.map (fun f => (stemOf f.1, f.2)))).map
      (fun p => ((Except.ok (sanKey p.1) : Except SSPatcherError (List Nat)), p.2))
    refine hperm.trans ?_
    rw [List.map_map]
    apply List.Perm.of_eq
    apply List.map_congr_left
    intro f hf
    simp only [Function.comp_apply]
    have := hok f hf
    rcases hsan : sanitize_name (stemOf f.1) with e | r
    · rw [hsan] at this
      exact absurd this (by rw [show (Except.error e :
          Except SSPatcherError (List Nat)).isOk = false from rfl]; decide)
    · rw [sanKey_eq _ _ hsan]

/-- Length of the alternating pattern. -/
theorem altList_length : ∀ n : Nat, (altList n).length = 2 * n := by
  intro n
  induction n with
  | zero => rfl
  | succ n ih =>
    show (0 :: 1 :: altList n).length = 2 * (n + 1)
    rw [List.length_cons, List.length_cons, ih]
    omega

/-- The alternating pattern decomposes over addition. -/
theorem altList_add : ∀ m n : Nat, altList (m + n) = altList m ++ altList n := by
  intro m
  induction m with
  | zero =>
    intro n
    simp [altList]
  | succ m ih =>
    intro n
    have hre : m + 1 + n = (m + n) + 1 := by omega
    rw [hre]
    show 0 :: 1 :: altList (m + n) = altList (m + 1) ++ altList n
    rw [ih]
    rfl

/-- One followed by the alternating pattern never repeats a byte
adjacently. -/
theorem altList_chain_one : ∀ n : Nat, List.Chain (· ≠ ·) 1 (altList n) := by
  intro n
  induction n with
  | zero => exact List.Chain.nil
  | succ n ih =>
    exact List.Chain.cons (by decide) (List.Chain.cons (by decide) ih)

/-- The alternating pattern never repeats a byte adjacently. -/
theorem altList_chain : ∀ n : Nat, List.Chain' (· ≠ ·) (altList n) := by
  intro n
  rcases n with _ | n
  · exact List.chain'_nil
  · show List.Chain' (· ≠ ·) (0 :: 1 :: altList n)
    rw [List.chain'_cons]
    exact ⟨by decide, altList_chain_one n⟩

/-- Run lengths produced by the scanning loop over an
adjacent-distinct tail. -/
theorem runsAux_chain :
    ∀ (xs : List Nat) (b k : Nat), List.Chain (· ≠ ·) b xs →
      ∀ p ∈ runsAux b k xs, p.2 = k ∨ p.2 = 1 := by
  intro xs
  induction xs with
  | nil =>
    intro b k _ p hp
    unfold runsAux at hp
    rw [List.mem_singleton] at hp
    rw [hp]
    left
    rfl
  | cons x rest ih =>
    intro b k hchain p hp
    rw [List.chain_cons] at hchain
    unfold runsAux at hp
    rw [if_neg (fun hc => hchain.1 hc.symm)] at hp
    rcases List.mem_cons.mp hp with hhead | htail
    · rw [hhead]
      left
      rfl
    · rcases ih x 1 hchain.2 p htail with h | h
      · right; exact h
      · right; exact h

/-- In a list with no two adjacent bytes equal, every maximal run has
length one. -/
theorem runs_le_one_of_chain (l : List Nat) (h : List.Chain' (· ≠ ·) l) :
    ∀ p ∈ runs l, p.2 ≤ 1 := by
  intro p hp
  rcases l with _ | ⟨x, xs⟩
  · unfold runs at hp
    simp at hp
  · unfold runs at hp
    have hchain : List.Chain (· ≠ ·) x xs := h
    rcases runsAux_chain xs x 1 hchain p hp with h1 | h1 <;> omega

/-- Concatenating copies of the alternating pattern yields the longer
alternating pattern. -/
theorem flatten_replicate_altList :
    ∀ n m : Nat, (List.replicate n (altList m)).flatten = altList (n * m) := by
  intro n
  induction n with
  | zero => intro m; simp [altList]
  | succ n ih =>
    intro m
    rw [List.replicate_succ, List.flatten_cons, ih, Nat.succ_mul, Nat.add_comm (n * m) m,
      altList_add]

/-- Data blocks of the demonstration load, in load order: 128 copies of
the synthetic block. -/
theorem demo_load_values :
    (loadResult demoFiles).map (fun q => q.2) = List.replicate 128 demoData := by
  rw [← List.perm_replicate]
  unfold loadResult
  rw [List.map_map]
  have hsnd : ((fun q : List Nat × List Nat => q.2) ∘
      (fun p : List Char × List Nat => (sanKey p.1, p.2))) =
      (fun p : List Char × List Nat => p.2) := by
    funext p
    rfl
  rw [hsnd]
  have hperm := (List.perm_insertionSort (fun a b => stemLe a b = true)
    (demoFiles.map (fun f => (stemOf f.1, f.2)))).map
    (fun p : List Char × List Nat => p.2)
  refine hperm.trans ?_
  rw [List.map_map]
  apply List.Perm.of_eq
  show demoFiles.map (fun f => f.2) = List.replicate 128 demoData
  unfold demoFiles
  rw [List.map_map]
  have : ((fun f : List Char × List Nat => f.2) ∘
      (fun i => (('w' :: 't' :: Nat.toDigits 10 i : List Char), demoData))) =
      (fun _ : Nat => demoData) := by
    funext i
    rfl
  rw [this]
  rw [List.map_const', List.length_range]

/-- Witness for C1: the roundtrip theorem applied to the synthetic
directory of 128 alternating-byte files and an all-zero short image,
with every hypothesis discharged by computation or by the
alternating-pattern lemmas. -/
theorem load_patch_read_roundtrip_witness :
    read_wavetables_from_files demoFiles false = .ok (loadResult demoFiles)
    ∧ patch demoFiles demoPatchImage = .ok (patchedImage demoFiles demoPatchImage)
    ∧ read_wt_names (patchedImage demoFiles demoPatchImage) =
        .ok ((loadResult demoFiles).map (fun q => q.1))
    ∧ read_wt_data (patchedImage demoFiles demoPatchImage) =
        .ok ((loadResult demoFiles).map (fun q => q.2))
    ∧ ((loadResult demoFiles).map
        (fun q => ((Except.ok q.1 : Except SSPatcherError (List Nat)), q.2))).Perm
        (demoFiles.map (fun f => (sanitize_name (stemOf f.1), f.2))) := by
  apply load_patch_read_roundtrip demoFiles demoPatchImage
  · unfold demoFiles
    rw [List.length_map, List.length_range]
    rfl
  · intro f hf
    unfold demoFiles at hf
    rw [List.mem_map] at hf
    obtain ⟨i, _, rfl⟩ := hf
    show demoData.length = WT_DATA_LENGTH
    unfold demoData
    rw [altList_length]
    rfl
  · intro f hf
    unfold demoFiles at hf
    rw [List.mem_map] at hf
    obtain ⟨i, hi, rfl⟩ := hf
    revert hi
    revert i
    decide
  · unfold demoFiles
    rw [List.map_map]
    decide
  · left
    unfold demoPatchImage
    rw [List.length_replicate]
  · rw [demo_load_values, show demoData = altList 4096 from rfl,
      flatten_replicate_altList]
    intro p hp
    have h1 := runs_le_one_of_chain _ (altList_chain (128 * 4096)) p hp
    have hrl : RUN_LIMIT = 2048 := rfl
    omega

/-- Totality of the code-point comparison on strings. -/
theorem lexLe_total : ∀ a b : List Char, lexLe a b = true ∨ lexLe b a = true := by
  intro a
  induction a with
  | nil =>
    intro b
    left
    rfl
  | cons x xs ih =>
    intro b
    rcases b with _ | ⟨y, ys⟩
    · right
      rfl
    · rcases lt_trichotomy x y with h | h | h
      · left
        unfold lexLe
        rw [if_pos h]
      · subst h
        rcases ih ys with h1 | h1
        · left
          unfold lexLe
          rw [if_neg (lt_irrefl x), if_neg (lt_irrefl x)]
          exact h1
        · right
          unfold lexLe
          rw [if_neg (lt_irrefl x), if_neg (lt_irrefl x)]
          exact h1
      · right
        unfold lexLe
        rw [if_pos h]

/-- Transitivity of the code-point comparison on strings. -/
theorem lexLe_trans :
    ∀ a b c : List Char, lexLe a b = true → lexLe b c = true → lexLe a c = true := by
  intro a
  induction a with
  | nil =>
    intro b c _ _
    rfl
  | cons x xs ih =>
    intro b c hab hbc
    rcases b with _ | ⟨y, ys⟩
    · rw [show lexLe (x :: xs) [] = false from rfl] at hab
      exact absurd hab (by decide)
    rcases c with _ | ⟨z, zs⟩
    · rw [show lexLe (y :: ys) [] = false from rfl] at hbc
      exact absurd hbc (by decide)
    unfold lexLe at hab hbc ⊢
    rcases lt_trichotomy x y with hxy | hxy | hxy
    · rcases lt_trichotomy y z with hyz | hyz | hyz
      · rw [if_pos (lt_trans hxy hyz)]
      · subst hyz
        rw [if_pos hxy]
      · rw [if_neg (lt_asymm hyz), if_pos hyz] at hbc
        exact absurd hbc (by decide)
    · subst hxy
      rw [if_neg (lt_irrefl x), if_neg (lt_irrefl x)] at hab
      rcases lt_trichotomy x z with hxz | hxz | hxz
      · rw [if_pos hxz]
      · subst hxz
        rw [if_neg (lt_irrefl x), if_neg (lt_irrefl x)] at hbc ⊢
        exact ih ys zs hab hbc
      · rw [if_neg (lt_asymm hxz), if_pos hxz] at hbc
        exact absurd hbc (by decide)
    · rw [if_neg (lt_asymm hxy), if_pos hxy] at hab
      exact absurd hab (by decide)

/-- Claim C10: patch always builds its wavetable set with the
non-prefixed loader.  First conjunct: the patch action of the CLI
dispatch never reads the --sortprefix flag, so flipping it cannot change
what patch writes.  Second conjunct: the patch action is exactly `patch`,
whose loader call has is_prefixed left at its default False.  Third
conjunct: the sort applied by that non-prefixed load orders items by the
code-point comparison of their stripped filename stems.  Fourth
conjunct: the flag does reach the hex-export path — on a concrete
directory, derive_names with the flag differs from derive_names
without it. -/
theorem patch_ignores_sort_flag :
    (∀ (sp sp' : Bool) (dir : List (List Char × List Nat)) (img : List Nat),
        run_patch_action ⟨sp, img, dir⟩ = run_patch_action ⟨sp', img, dir⟩)
    ∧ (∀ (sp : Bool) (dir : List (List Char × List Nat)) (img : List Nat),
        run_patch_action ⟨sp, img, dir⟩ = patch dir img)
    ∧ (∀ d : List (List Char × List Nat),
        (sortItems d).Pairwise (fun a b => stemLe a b = true))
    ∧ run_hex_action ⟨true, [], [(['a', '_', 'b'], List.replicate 8192 0)]⟩ ≠
        run_hex_action ⟨false, [], [(['a', '_', 'b'], List.replicate 8192 0)]⟩ := by
  refine ⟨fun _ _ _ _ => rfl, fun _ _ _ => rfl, ?_, ?_⟩
  · intro d
    unfold sortItems
    exact @List.sorted_insertionSort _ (fun a b => stemLe a b = true) _
      ⟨fun a b => lexLe_total _ _⟩
      ⟨fun a b c hab hbc => lexLe_trans _ _ _ hab hbc⟩ d
  · show derive_names [(['a', '_', 'b'], List.replicate 8192 0)] true ≠
      derive_names [(['a', '_', 'b'], List.replicate 8192 0)] false
    have h0 : (List.replicate 8192 (0 : Nat)).length = WT_DATA_LENGTH := by
      rw [List.length_replicate]; rfl
    simp only [derive_names, read_wavetables_from_files, buildDict, h0, ne_eq,
      not_true_eq_false, if_false, ite_false]
    decide

/-- Byte length of the synthetic full image. -/
theorem demoFullImage_length : demoFullImage.length = IMAGE_SIZE_SHORT := by
  unfold demoFullImage
  rw [List.length_append, List.length_append, List.length_append, List.length_replicate,
    List.length_replicate, altList_length, show demoNameBlock.length = 1024 from by decide]
  decide

/-- Name region of the synthetic full image. -/
theorem demoFullImage_slice_names :
    slice demoFullImage WT_NAME_OFFSET (WT_NAME_LENGTH * NUM_WT) = demoNameBlock := by
  unfold slice demoFullImage
  rw [List.append_assoc, List.append_assoc, List.drop_left' (by rw [List.length_replicate]),
    List.take_left' (by decide)]

/-- Data region of the synthetic full image. -/
theorem demoFullImage_slice_data :
    slice demoFullImage WT_DATA_OFFSET (WT_DATA_LENGTH * NUM_WT) =
      altList (WT_DATA_LENGTH * NUM_WT / 2) := by
  unfold slice demoFullImage
  rw [List.drop_left' (by
    rw [List.length_append, List.length_append, List.length_replicate, List.length_replicate,
      show demoNameBlock.length = 1024 from by decide]
    decide)]
  rw [List.take_of_length_le (by rw [altList_length]; decide)]

/-- The synthetic name block encodes 128 copies of the name ABCDEF. -/
theorem demoNameBlock_eq :
    demoNameBlock =
      nameData (List.replicate 128 ([65, 66, 67, 68, 69, 70] : List Nat)) := by
  rw [nameData_eq_flatten _ (by simp), List.map_replicate]
  rfl

/-- Names read from the synthetic full image. -/
theorem demoFullImage_read_names :
    read_wt_names demoFullImage =
      .ok (List.replicate 128 ([65, 66, 67, 68, 69, 70] : List Nat)) := by
  apply read_wt_names_of_block
  · rw [List.length_replicate]
    rfl
  · intro n hn
    rw [List.eq_of_mem_replicate hn]
    rfl
  · rw [demoFullImage_slice_names, demoNameBlock_eq]

/-- Data blocks read from the synthetic full image. -/
theorem demoFullImage_read_data :
    read_wt_data demoFullImage = .ok (List.replicate 128 (altList 4096)) := by
  apply read_wt_data_of_block
  · rw [List.length_replicate]
    rfl
  · intro v hv
    rw [List.eq_of_mem_replicate hv]
    rw [altList_length]
    decide
  · rw [demoFullImage_slice_data, flatten_replicate_altList]
    rfl
  · rw [flatten_replicate_altList]
    intro p hp
    have h1 := runs_le_one_of_chain _ (altList_chain (128 * 4096)) p hp
    have hrl : RUN_LIMIT = 2048 := rfl
    omega

/-- Directories are untouched by a file write. -/
theorem upsertFile_dirs (fs : FS) (p : List Char) (b : List Nat) :
    (upsertFile fs p b).dirs = fs.dirs := by
  unfold upsertFile
  by_cases h : fs.files.any (fun f => f.1 = p) <;> simp [h]

/-- A file write makes its path present. -/
theorem upsertFile_mem_self (fs : FS) (p : List Char) (b : List Nat) :
    p ∈ (upsertFile fs p b).files.map (fun f => f.1) := by
  unfold upsertFile
  by_cases h : fs.files.any (fun f => f.1 = p) = true
  · rw [if_pos h]
    rw [List.any_eq_true] at h
    obtain ⟨f, hf, hfp⟩ := h
    simp only [decide_eq_true_eq] at hfp
    rw [List.mem_map]
    refine ⟨(p, b), ?_, rfl⟩
    rw [List.mem_map]
    exact ⟨f, hf, by rw [if_pos hfp]⟩
  · rw [if_neg h]
    rw [List.map_append, List.mem_append]
    right
    simp

/-- A file write preserves the presence of every path. -/
theorem upsertFile_mem_mono (fs : FS) (p k : List Char) (b : List Nat)
    (h : k ∈ fs.files.map (fun f => f.1)) :
    k ∈ (upsertFile fs p b).files.map (fun f => f.1) := by
  unfold upsertFile
  rw [List.mem_map] at h
  obtain ⟨f, hf, rfl⟩ := h
  by_cases hc : fs.files.any (fun f => f.1 = p) = true
  · rw [if_pos hc]
    rw [List.mem_map]
    by_cases hfp : f.1 = p
    · refine ⟨(p, b), ?_, hfp.symm⟩
      rw [List.mem_map]
      exact ⟨f, hf, by rw [if_pos hfp]⟩
    · refine ⟨f, ?_, rfl⟩
      rw [List.mem_map]
      exact ⟨f, hf, by rw [if_neg hfp]⟩
  · rw [if_neg hc]
    rw [List.map_append, List.mem_append]
    left
    exact List.mem_map_of_mem _ hf

/-- When the hardcoded `test_wavs` directory is missing, the write loop
fails immediately on its first wavetable with an I/O error, writing
nothing. -/
theorem extractLoop_no_wavs_dir (fs : FS) (dest : List Char)
    (pairs : List (List Nat × List Nat))
    (hnw : fs.dirs.contains testWavsDir = false) (hne : pairs ≠ []) :
    extractLoop fs dest pairs = (.error .ioError, fs) := by
  rcases pairs with _ | ⟨⟨n, t⟩, rest⟩
  · exact absurd rfl hne
  · unfold extractLoop writeInDir
    rw [hnw]
    rfl

/-- A write to a path not yet present appends the file. -/
theorem upsertFile_fresh (fs : FS) (p : List Char) (b : List Nat)
    (h : fs.files.any (fun f => f.1 = p) = false) :
    upsertFile fs p b = ⟨fs.dirs, fs.files ++ [(p, b)]⟩ := by
  unfold upsertFile
  rw [h]
  rfl

/-- A write of the value a path already holds leaves the filesystem
unchanged. -/
theorem upsertFile_same (fs : FS) (p : List Char) (b : List Nat)
    (hmem : fs.files.any (fun f => f.1 = p) = true)
    (hval : ∀ f ∈ fs.files, f.1 = p → f.2 = b) :
    upsertFile fs p b = fs := by
  obtain ⟨ds, fls⟩ := fs
  unfold upsertFile
  rw [hmem]
  simp only [if_true, FS.mk.injEq, true_and]
  have : ∀ f ∈ fls, (if f.1 = p then (p, b) else f) = f := by
    intro f hf
    by_cases hfp : f.1 = p
    · rw [if_pos hfp]
      have hv := hval f hf hfp
      rw [Prod.ext_iff]
      exact ⟨hfp.symm, hv.symm⟩
    · rw [if_neg hfp]
  calc fls.map (fun f => if f.1 = p then (p, b) else f)
      = fls.map (fun f => f) := List.map_congr_left this
    _ = fls := List.map_id' fls

/-- When both `test_wavs` and the destination exist and every name is
UTF-8-decodable, the write loop succeeds, leaves the directory set
unchanged, only adds files, and writes per wavetable one wav file (at
the str-formatted bytes path) and one raw file (at the decoded path). -/
theorem extractLoop_writes (dest : List Char) :
    ∀ (pairs : List (List Nat × List Nat)) (fs : FS),
      fs.dirs.contains testWavsDir = true → fs.dirs.contains dest = true →
      (∀ nt ∈ pairs, (utf8Decode nt.1).isSome = true) →
      ∃ fs' : FS, extractLoop fs dest pairs = (.ok (), fs')
        ∧ fs'.dirs = fs.dirs
        ∧ (∀ k ∈ fs.files.map (fun f => f.1), k ∈ fs'.files.map (fun f => f.1))
        ∧ ∀ nt ∈ pairs,
            (testWavsDir ++ '/' :: (pyBytesRepr nt.1 ++ dotWav)) ∈
              fs'.files.map (fun f => f.1)
            ∧ ∃ s, utf8Decode nt.1 = some s ∧
                (dest ++ '/' :: (s ++ dotRaw)) ∈ fs'.files.map (fun f => f.1) := by
  intro pairs
  induction pairs with
  | nil =>
    intro fs _ _ _
    refine ⟨fs, rfl, rfl, fun k hk => hk, ?_⟩
    intro nt hnt
    simp at hnt
  | cons nt rest ih =>
    intro fs hw hd hdec
    obtain ⟨n, t⟩ := nt
    obtain ⟨s, hs⟩ := Option.isSome_iff_exists.mp (hdec (n, t) (List.mem_cons_self _ _))
    have hstep1 : writeInDir fs testWavsDir (pyBytesRepr n ++ dotWav) (wavFileContents t) =
        .ok (upsertFile fs (testWavsDir ++ '/' :: (pyBytesRepr n ++ dotWav))
          (wavFileContents t)) := by
      unfold writeInDir
      rw [hw]
      rfl
    have hdirs1 : (upsertFile fs (testWavsDir ++ '/' :: (pyBytesRepr n ++ dotWav))
        (wavFileContents t)).dirs = fs.dirs := upsertFile_dirs _ _ _
    have hstep2 : writeInDir (upsertFile fs (testWavsDir ++ '/' :: (pyBytesRepr n ++ dotWav))
        (wavFileContents t)) dest (s ++ dotRaw) t =
        .ok (upsertFile (upsertFile fs (testWavsDir ++ '/' :: (pyBytesRepr n ++ dotWav))
          (wavFileContents t)) (dest ++ '/' :: (s ++ dotRaw)) t) := by
      unfold writeInDir
      rw [hdirs1, hd]
      rfl
    have hdirs2 : (upsertFile (upsertFile fs (testWavsDir ++ '/' :: (pyBytesRepr n ++ dotWav))
        (wavFileContents t)) (dest ++ '/' :: (s ++ dotRaw)) t).dirs = fs.dirs := by
      rw [upsertFile_dirs, hdirs1]
    obtain ⟨fs', hloop, hdirs', hmono, hwrites⟩ :=
      ih (upsertFile (upsertFile fs (testWavsDir ++ '/' :: (pyBytesRepr n ++ dotWav))
        (wavFileContents t)) (dest ++ '/' :: (s ++ dotRaw)) t)
        (by rw [hdirs2]; exact hw) (by rw [hdirs2]; exact hd)
        (fun p hp => hdec p (List.mem_cons_of_mem _ hp))
    refine ⟨fs', ?_, by rw [hdirs', hdirs2], ?_, ?_⟩
    · unfold extractLoop
      simp only [hstep1, hs, hstep2]
      exact hloop
    · intro k hk
      apply hmono
      apply upsertFile_mem_mono
      apply upsertFile_mem_mono
      exact hk
    · intro p hp
      rcases List.mem_cons.mp hp with hhead | htail
      · rw [hhead]
        constructor
        · apply hmono
          apply upsertFile_mem_mono
          exact upsertFile_mem_self _ _ _
        · refine ⟨s, hs, ?_⟩
          apply hmono
          exact upsertFile_mem_self _ _ _
      · exact hwrites p htail

/-- General failure shape of extract without a `test_wavs` directory:
the destination directory is created and left behind, the files are
untouched, and the result is an I/O error. -/
theorem extract_fail_helper (fs : FS) (source dest : List Char) (img : List Nat)
    (names tables : List (List Nat))
    (hsrc : lookupFile fs source = some img)
    (hsize : img.length = IMAGE_SIZE_SHORT ∨ img.length = IMAGE_SIZE_LONG)
    (hdest : pathExists fs dest = false)
    (hnames : read_wt_names img = .ok names)
    (htables : read_wt_data img = .ok tables)
    (hnc : names.length = NUM_WT) (htc : tables.length = NUM_WT)
    (hnw : (dest :: fs.dirs).contains testWavsDir = false) :
    extract fs source dest = (.error .ioError, ⟨dest :: fs.dirs, fs.files⟩) := by
  have hchk : check_image_size img.length = .ok () := by
    unfold check_image_size
    rw [if_neg]
    tauto
  unfold extract
  rw [hsrc]
  simp only [hchk, hdest, Bool.false_eq_true, if_false, ite_false, hnames, htables]
  rw [if_pos (by rw [hnc, htc]; exact ⟨rfl, rfl⟩)]
  apply extractLoop_no_wavs_dir
  · exact hnw
  · intro hc
    have := congrArg List.length hc
    rw [List.length_zip, hnc, htc] at this
    exact absurd this (by decide)

/-- General success shape of extract with a `test_wavs` directory
present and UTF-8-decodable names: one wav file into `test_wavs` (at the
str-formatted bytes path) and one raw file into the destination per
wavetable. -/
theorem extract_ok_helper (fs : FS) (source dest : List Char) (img : List Nat)
    (names tables : List (List Nat))
    (hsrc : lookupFile fs source = some img)
    (hsize : img.length = IMAGE_SIZE_SHORT ∨ img.length = IMAGE_SIZE_LONG)
    (hdest : pathExists fs dest = false)
    (hnames : read_wt_names img = .ok names)
    (htables : read_wt_data img = .ok tables)
    (hnc : names.length = NUM_WT) (htc : tables.length = NUM_WT)
    (hw : fs.dirs.contains testWavsDir = true)
    (hdec : ∀ n ∈ names, (utf8Decode n).isSome = true) :
    ∃ fs' : FS, extract fs source dest = (.ok (), fs')
      ∧ fs'.dirs = dest :: fs.dirs
      ∧ ∀ nt ∈ names.zip tables,
          (testWavsDir ++ '/' :: (pyBytesRepr nt.1 ++ dotWav)) ∈
            fs'.files.map (fun f => f.1)
          ∧ ∃ s, utf8Decode nt.1 = some s ∧
              (dest ++ '/' :: (s ++ dotRaw)) ∈ fs'.files.map (fun f => f.1) := by
  have hchk : check_image_size img.length = .ok () := by
    unfold check_image_size
    rw [if_neg]
    tauto
  obtain ⟨fs', hloop, hdirs', _, hwrites⟩ :=
    extractLoop_writes dest (names.zip tables) ⟨dest :: fs.dirs, fs.files⟩
      (by rw [List.contains_cons, hw]; simp) (by rw [List.contains_cons]; simp)
      (fun nt hnt => hdec nt.1 (List.of_mem_zip hnt).1)
  refine ⟨fs', ?_, by rw [hdirs'], hwrites⟩
  unfold extract
  rw [hsrc]
  simp only [hchk, hdest, Bool.false_eq_true, if_false, ite_false, hnames, htables]
  rw [if_pos (by rw [hnc, htc]; exact ⟨rfl, rfl⟩)]
  exact hloop
/-- Zipping two equally long constant lists. -/
theorem zip_replicate_self {A B : Type} (a : A) (b : B) :
    ∀ n : Nat, (List.replicate n a).zip (List.replicate n b) = List.replicate n (a, b) := by
  intro n
  induction n with
  | zero => rfl
  | succ n ih =>
    rw [List.replicate_succ, List.replicate_succ, List.replicate_succ,
      List.zip_cons_cons, ih]

/-- Repeating the write of one wavetable whose wav and raw files the
filesystem already holds with the same contents is a no-op. -/
theorem extractLoop_const (dest : List Char) (name table : List Nat) (s : List Char)
    (fs : FS)
    (hw : fs.dirs.contains testWavsDir = true) (hd : fs.dirs.contains dest = true)
    (hdec : utf8Decode name = some s)
    (hwav : upsertFile fs (testWavsDir ++ '/' :: (pyBytesRepr name ++ dotWav))
      (wavFileContents table) = fs)
    (hraw : upsertFile fs (dest ++ '/' :: (s ++ dotRaw)) table = fs) :
    ∀ k, extractLoop fs dest (List.replicate k (name, table)) = (.ok (), fs) := by
  intro k
  induction k with
  | zero => rfl
  | succ k ih =>
    rw [List.replicate_succ]
    have h1base : writeInDir fs testWavsDir (pyBytesRepr name ++ dotWav)
        (wavFileContents table) =
        .ok (upsertFile fs (testWavsDir ++ '/' :: (pyBytesRepr name ++ dotWav))
          (wavFileContents table)) := by
      unfold writeInDir
      rw [hw]
      rfl
    have h1 : writeInDir fs testWavsDir (pyBytesRepr name ++ dotWav)
        (wavFileContents table) = .ok fs := by
      rw [h1base, hwav]
    have h2base : writeInDir fs dest (s ++ dotRaw) table =
        .ok (upsertFile fs (dest ++ '/' :: (s ++ dotRaw)) table) := by
      unfold writeInDir
      rw [hd]
      rfl
    have h2 : writeInDir fs dest (s ++ dotRaw) table = .ok fs := by
      rw [h2base, hraw]
    unfold extractLoop
    simp only [h1, hdec, h2]
    exact ih

/-- Writing one wavetable repeatedly into a filesystem where neither of
its two files exists yet: the first iteration creates the wav file at
the str-formatted bytes path and the raw file at the decoded path, and
every further iteration overwrites them with identical contents. -/
theorem extractLoop_replicate (dest : List Char) (name table : List Nat) (s : List Char)
    (fs : FS)
    (hw : fs.dirs.contains testWavsDir = true) (hd : fs.dirs.contains dest = true)
    (hdec : utf8Decode name = some s)
    (hwavfresh : fs.files.any
      (fun f => f.1 = testWavsDir ++ '/' :: (pyBytesRepr name ++ dotWav)) = false)
    (hrawfresh : fs.files.any (fun f => f.1 = dest ++ '/' :: (s ++ dotRaw)) = false)
    (hdistinct : testWavsDir ++ '/' :: (pyBytesRepr name ++ dotWav) ≠
      dest ++ '/' :: (s ++ dotRaw)) :
    ∀ k, extractLoop fs dest (List.replicate (k + 1) (name, table)) =
      (.ok (), ⟨fs.dirs, fs.files ++
        [(testWavsDir ++ '/' :: (pyBytesRepr name ++ dotWav), wavFileContents table),
         (dest ++ '/' :: (s ++ dotRaw), table)]⟩) := by
  intro k
  rw [List.replicate_succ]
  have h1base : writeInDir fs testWavsDir (pyBytesRepr name ++ dotWav)
      (wavFileContents table) =
      .ok (upsertFile fs (testWavsDir ++ '/' :: (pyBytesRepr name ++ dotWav))
        (wavFileContents table)) := by
    unfold writeInDir
    rw [hw]
    rfl
  have h1 : writeInDir fs testWavsDir (pyBytesRepr name ++ dotWav)
      (wavFileContents table) =
      .ok ⟨fs.dirs, fs.files ++
        [(testWavsDir ++ '/' :: (pyBytesRepr name ++ dotWav), wavFileContents table)]⟩ := by
    rw [h1base, upsertFile_fresh fs _ _ hwavfresh]
  have h2base : writeInDir (⟨fs.dirs, fs.files ++
      [(testWavsDir ++ '/' :: (pyBytesRepr name ++ dotWav), wavFileContents table)]⟩ : FS)
      dest (s ++ dotRaw) table =
      .ok (upsertFile (⟨fs.dirs, fs.files ++
        [(testWavsDir ++ '/' :: (pyBytesRepr name ++ dotWav), wavFileContents table)]⟩ : FS)
        (dest ++ '/' :: (s ++ dotRaw)) table) := by
    unfold writeInDir
    rw [show (⟨fs.dirs, fs.files ++
      [(testWavsDir ++ '/' :: (pyBytesRepr name ++ dotWav), wavFileContents table)]⟩ :
        FS).dirs.contains dest = true from hd]
    rfl
  have hfresh2 : ((⟨fs.dirs, fs.files ++
      [(testWavsDir ++ '/' :: (pyBytesRepr name ++ dotWav), wavFileContents table)]⟩ :
        FS).files.any (fun f => f.1 = dest ++ '/' :: (s ++ dotRaw))) = false := by
    show (fs.files ++ [(testWavsDir ++ '/' :: (pyBytesRepr name ++ dotWav),
      wavFileContents table)]).any (fun f => f.1 = dest ++ '/' :: (s ++ dotRaw)) = false
    rw [List.any_append, hrawfresh]
    simp only [List.any_cons, List.any_nil, Bool.or_false, Bool.false_or]
    simp only [decide_eq_false_iff_not]
    exact hdistinct
  have h2 : writeInDir (⟨fs.dirs, fs.files ++
      [(testWavsDir ++ '/' :: (pyBytesRepr name ++ dotWav), wavFileContents table)]⟩ : FS)
      dest (s ++ dotRaw) table =
      .ok ⟨fs.dirs, fs.files ++
        [(testWavsDir ++ '/' :: (pyBytesRepr name ++ dotWav), wavFileContents table),
         (dest ++ '/' :: (s ++ dotRaw), table)]⟩ := by
    rw [h2base, upsertFile_fresh _ _ _ hfresh2]
    rw [List.append_assoc]
    rfl
  unfold extractLoop
  simp only [h1, hdec, h2]
  apply extractLoop_const dest name table s
    (⟨fs.dirs, fs.files ++
      [(testWavsDir ++ '/' :: (pyBytesRepr name ++ dotWav), wavFileContents table),
       (dest ++ '/' :: (s ++ dotRaw), table)]⟩ : FS) hw hd hdec
  · apply upsertFile_same
    · show (fs.files ++ _).any _ = true
      rw [List.any_append]
      simp
    · intro f hf hfp
      rcases List.mem_append.mp hf with hold | hnew
      · exfalso
        rw [List.any_eq_false] at hwavfresh
        have := hwavfresh f hold
        simp only [decide_eq_true_eq] at this
        exact this hfp
      · rcases List.mem_cons.mp hnew with h1' | h2'
        · rw [h1']
        · rcases List.mem_cons.mp h2' with h3' | h4'
          · exfalso
            apply hdistinct
            rw [h3'] at hfp
            exact hfp.symm ▸ rfl
          · simp at h4'
  · apply upsertFile_same
    · show (fs.files ++ _).any _ = true
      rw [List.any_append]
      simp
    · intro f hf hfp
      rcases List.mem_append.mp hf with hold | hnew
      · exfalso
        rw [List.any_eq_false] at hrawfresh
        have := hrawfresh f hold
        simp only [decide_eq_true_eq] at this
        exact this hfp
      · rcases List.mem_cons.mp hnew with h1' | h2'
        · exfalso
          apply hdistinct
          rw [h1'] at hfp
          exact hfp
        · rcases List.mem_cons.mp h2' with h3' | h4'
          · rw [h3']
          · simp at h4'


/-- Shape of a size- and destination-check-passing extract run: it is
the write loop run on the filesystem with the destination directory
freshly created. -/
theorem extract_ok_eq_loop (fs : FS) (source dest : List Char) (img : List Nat)
    (names tables : List (List Nat))
    (hsrc : lookupFile fs source = some img)
    (hsize : img.length = IMAGE_SIZE_SHORT ∨ img.length = IMAGE_SIZE_LONG)
    (hdest : pathExists fs dest = false)
    (hnames : read_wt_names img = .ok names)
    (htables : read_wt_data img = .ok tables)
    (hnc : names.length = NUM_WT) (htc : tables.length = NUM_WT) :
    extract fs source dest =
      extractLoop ⟨dest :: fs.dirs, fs.files⟩ dest (names.zip tables) := by
  have hchk : check_image_size img.length = .ok () := by
    unfold check_image_size
    rw [if_neg]
    tauto
  unfold extract
  rw [hsrc]
  simp only [hchk, hdest, Bool.false_eq_true, if_false, ite_false, hnames, htables]
  rw [if_pos (by rw [hnc, htc]; exact ⟨rfl, rfl⟩)]

/-- Claim C9 counterexample: the wav files are not named
`<decoded-name>.wav`.  On the synthetic image whose 128 wavetables are
all named `ABCDEF`, extract succeeds (with `test_wavs` present) but line
183 renders the undecoded bytes name through `str.format`, so the wav
file lands at `test_wavs/b'ABCDEF'.wav` — the quote characters and the
leading `b` included in the filename — while no file exists at the
claimed path `test_wavs/ABCDEF.wav`. -/
theorem extract_wav_filename_counterexample :
    extract demoFS2 demoImagePath demoDestPath =
      (.ok (), ⟨[demoDestPath, testWavsDir], demoExtractFiles⟩)
    ∧ pyBytesRepr [65, 66, 67, 68, 69, 70] =
        ['b', Char.ofNat 39, 'A', 'B', 'C', 'D', 'E', 'F', Char.ofNat 39]
    ∧ (testWavsDir ++ '/' :: (['A', 'B', 'C', 'D', 'E', 'F'] ++ dotWav)) ∉
        demoExtractFiles.map (fun f => f.1)
    ∧ (testWavsDir ++ '/' :: (pyBytesRepr [65, 66, 67, 68, 69, 70] ++ dotWav)) ∈
        demoExtractFiles.map (fun f => f.1) := by
  refine ⟨?_, by decide, by decide, by decide⟩
  refine (extract_ok_eq_loop demoFS2 demoImagePath demoDestPath demoFullImage
    (List.replicate 128 ([65, 66, 67, 68, 69, 70] : List Nat))
    (List.replicate 128 (altList 4096))
    rfl (Or.inl demoFullImage_length) rfl demoFullImage_read_names
    demoFullImage_read_data (by rw [List.length_replicate]; rfl)
    (by rw [List.length_replicate]; rfl)).trans ?_
  rw [zip_replicate_self]
  exact extractLoop_replicate demoDestPath [65, 66, 67, 68, 69, 70] (altList 4096)
    (['A', 'B', 'C', 'D', 'E', 'F'])
    (⟨demoDestPath :: demoFS2.dirs, demoFS2.files⟩ : FS)
    (by decide) (by decide) (by decide) (by decide) (by decide) (by decide) 127

/-- Claim C9 (amended): for every run of extract that passes the size
and destination checks, with the destination directory created first:
if no `test_wavs` directory exists the run fails with an I/O error,
leaving the fresh destination directory behind with no file written —
extraction is not atomic on this failure; if `test_wavs` exists and
every stripped name is UTF-8-decodable, then per wavetable the code
attempts one wav write into `test_wavs` at the str-formatted bytes path
`test_wavs/b'<name>'.wav` (not `<decoded-name>.wav`) before writing that
wavetable to `<dest>/<decoded-name>.raw`. -/
theorem extract_wav_side_effects (fs : FS) (source dest : List Char) (img : List Nat)
    (names tables : List (List Nat))
    (hsrc : lookupFile fs source = some img)
    (hsize : img.length = IMAGE_SIZE_SHORT ∨ img.length = IMAGE_SIZE_LONG)
    (hdest : pathExists fs dest = false)
    (hnames : read_wt_names img = .ok names)
    (htables : read_wt_data img = .ok tables)
    (hnc : names.length = NUM_WT) (htc : tables.length = NUM_WT) :
    ((dest :: fs.dirs).contains testWavsDir = false →
      extract fs source dest = (.error .ioError, ⟨dest :: fs.dirs, fs.files⟩))
    ∧ (fs.dirs.contains testWavsDir = true →
       (∀ n ∈ names, (utf8Decode n).isSome = true) →
       ∃ fs' : FS, extract fs source dest = (.ok (), fs')
         ∧ fs'.dirs = dest :: fs.dirs
         ∧ ∀ nt ∈ names.zip tables,
             (testWavsDir ++ '/' :: (pyBytesRepr nt.1 ++ dotWav)) ∈
               fs'.files.map (fun f => f.1)
             ∧ ∃ s, utf8Decode nt.1 = some s ∧
                 (dest ++ '/' :: (s ++ dotRaw)) ∈ fs'.files.map (fun f => f.1)) := by
  constructor
  · intro hnw
    exact extract_fail_helper fs source dest img names tables hsrc hsize hdest
      hnames htables hnc htc hnw
  · intro hw hdec
    exact extract_ok_helper fs source dest img names tables hsrc hsize hdest
      hnames htables hnc htc hw hdec

/-- Witness for C9 at the synthetic image in a filesystem without
`test_wavs`: the failure half fires, and extract returns an I/O error
with only the fresh destination directory behind. -/
theorem extract_wav_side_effects_witness :
    extract demoFS demoImagePath demoDestPath =
      (.error .ioError, ⟨[demoDestPath], demoFS.files⟩) :=
  (extract_wav_side_effects demoFS demoImagePath demoDestPath demoFullImage
    (List.replicate 128 ([65, 66, 67, 68, 69, 70] : List Nat))
    (List.replicate 128 (altList 4096))
    rfl
    (Or.inl demoFullImage_length)
    rfl
    demoFullImage_read_names
    demoFullImage_read_data
    (by rw [List.length_replicate]; rfl)
    (by rw [List.length_replicate]; rfl)).1 (by decide)

/-- Claim C8: the spec says extract writes, per wavetable, exactly one
raw file into the destination and nothing else; the code additionally
attempts one wav write per wavetable into the hardcoded test_wavs
directory (the "write wavs for testing" block), so a run in a working
directory without test_wavs fails with an I/O error after creating the
destination directory, writing no raw file at all — contradicting both
the claim and the repository's own extraction tests, which only expect
the destination files.  This theorem evaluates the code at such a
failing configuration. -/
theorem extract_demo_fails_without_test_wavs :
    extract demoFS demoImagePath demoDestPath =
      (.error .ioError, ⟨[demoDestPath], demoFS.files⟩) :=
  extract_fail_helper demoFS demoImagePath demoDestPath demoFullImage
    (List.replicate 128 ([65, 66, 67, 68, 69, 70] : List Nat))
    (List.replicate 128 (altList 4096))
    rfl
    (Or.inl demoFullImage_length)
    rfl
    demoFullImage_read_names
    demoFullImage_read_data
    (by rw [List.length_replicate]; rfl)
    (by rw [List.length_replicate]; rfl)
    (by decide)

end SSpatcher
